import Mathlib

/-!
FastBEV look-up-table builder.

A shallow embedding of `build_LUT_CPU` (src/buildLut.h) and of the `Tensor`
carrier (src/Tensor.h), followed by theorems about the table the builder
produces.

Conventions of the embedding:

* `int` / `int32_t` values are mathematical integers; every `int` operation of
  the source whose result could leave the 32-bit range is passed through
  `wrap32`.  `size_t` values are natural numbers reduced by `wrap64`.
* `float` is an abstract carrier `F` with the operations the builder uses,
  collected in `FloatOps F`.  Theorems quantified over `FloatOps F` hold for
  every interpretation of the float operations; `exactOps` interprets them as
  exact rational arithmetic with round-half-away-from-zero, `binary32Ops` as
  single precision, every operation rounded to the nearest binary32 value.
* raw-pointer and `operator[]` accesses are bounds-checked: the builder returns
  `none` as soon as one access falls outside its buffer.
-/

namespace FastBEV

/-! ## Machine integers -/

/-- Two's-complement reduction of an integer to the range of a 32-bit `int`. -/
def wrap32 (v : Int) : Int := (v + 2147483648) % 4294967296 - 2147483648

/-- Reduction of a natural number to the range of a 64-bit `size_t`. -/
def wrap64 (n : Nat) : Nat := n % 18446744073709551616

/-- Conversion of an `int` to `size_t` (the usual arithmetic conversion that
`total_size != data.size()` performs on its left operand). -/
def toSizeT (v : Int) : Nat := (v % 18446744073709551616).toNat

/-! ## Floating point interface -/

/-- The operations on `float` that the builder performs. -/
structure FloatOps (F : Type) where
  /-- Conversion `int -> float`. -/
  ofInt : Int → F
  /-- The literal `2.0f`. -/
  two : F
  /-- Float addition. -/
  add : F → F → F
  /-- Float subtraction. -/
  sub : F → F → F
  /-- Float multiplication. -/
  mul : F → F → F
  /-- Float division. -/
  div : F → F → F
  /-- The conversion `int x = round(v)`.  The builder only compares the result
  with `0`, `width` and `height` before using it, so a conversion whose value
  leaves the `int` range (undefined in C++) may be given any value that fails
  those comparisons, such as the mathematical integer itself. -/
  round : F → Int
  /-- The comparison `a < b`. -/
  lt : F → F → Bool

/-- Nearest integer of a rational, halves rounded away from zero (C `round`). -/
def roundHalfAway (q : ℚ) : Int :=
  if 0 ≤ q then Int.floor (q + 1 / 2) else - Int.floor (-q + 1 / 2)

/-- Exact interpretation of the float operations over the rationals. -/
def exactOps : FloatOps ℚ where
  ofInt := fun v => (v : ℚ)
  two := 2
  add := fun a b => a + b
  sub := fun a b => a - b
  mul := fun a b => a * b
  div := fun a b => a / b
  round := roundHalfAway
  lt := fun a b => decide (a < b)

/-- The power `2^k` of an integer exponent, as a rational. -/
def pow2 (k : Int) : ℚ :=
  if 0 ≤ k then ((2 ^ k.toNat : Nat) : ℚ) else 1 / ((2 ^ (-k).toNat : Nat) : ℚ)

/-- Number of binary digits of `n`; the first argument bounds the recursion and
is taken to be `n` itself. -/
def bitLength : Nat → Nat → Nat
  | 0, _ => 0
  | fuel + 1, n => if n = 0 then 0 else 1 + bitLength fuel (n / 2)

/-- The integer `k` with `2^k <= q < 2^(k+1)`, for a positive rational `q`. -/
def ilog2 (q : ℚ) : Int :=
  let k : Int := (bitLength q.num.natAbs q.num.natAbs : Int) - (bitLength q.den q.den : Int)
  if q < pow2 k then k - 1 else k

/-- Nearest integer of a rational, halves rounded to the even neighbour. -/
def roundHalfEven (x : ℚ) : Int :=
  let f := Int.floor x
  let r := x - (f : ℚ)
  if r < 1 / 2 then f else if 1 / 2 < r then f + 1 else if f % 2 = 0 then f else f + 1

/-- Rounding of a rational to the nearest IEEE 754 binary32 value (24-bit
significand, ties to even, gradual underflow below `2^-126`).  Overflow to
infinity is not represented: the value is rounded as if the exponent range were
unbounded above. -/
def roundF32 (q : ℚ) : ℚ :=
  if q = 0 then 0
  else
    let a : ℚ := if q < 0 then -q else q
    let e : Int := max (ilog2 a - 23) (-149)
    let m : Int := roundHalfEven (a / pow2 e)
    if q < 0 then -((m : ℚ) * pow2 e) else (m : ℚ) * pow2 e

/-- Single precision interpretation of the float operations: every operation is
the exact result rounded by `roundF32`.  Infinities and NaN are not represented
(a division by zero gives `0`), so the interpretation is that of `float` on
finite results below `2^128`. -/
def binary32Ops : FloatOps ℚ where
  ofInt := fun v => roundF32 (v : ℚ)
  two := 2
  add := fun a b => roundF32 (a + b)
  sub := fun a b => roundF32 (a - b)
  mul := fun a b => roundF32 (a * b)
  div := fun a b => roundF32 (a / b)
  round := roundHalfAway
  lt := fun a b => decide (a < b)

/-! ## Tensor (src/Tensor.h) -/

/-- The `Tensor` class: a shape and a flat data vector. -/
structure Tensor (F : Type) where
  /-- Field `dims_`. -/
  dims_ : List Int
  /-- Field `data_`. -/
  data_ : List F

/-- The running product `total_size *= dim` over `dims`, in `int` arithmetic. -/
def Tensor.total_size (dims : List Int) : Int :=
  dims.foldl (fun acc dim => wrap32 (acc * dim)) 1

/-- The constructor `Tensor(dims, data)`; `Except.error` carries the message of
the `std::invalid_argument` it throws. -/
def Tensor.construct {F : Type} (dims : List Int) (data : List F) :
    Except String (Tensor F) :=
  if dims.isEmpty || data.isEmpty then
    Except.error "Dimensions and data cannot be empty"
  else if toSizeT (Tensor.total_size dims) ≠ data.length then
    Except.error "Data size does not match dimensions"
  else
    Except.ok { dims_ := dims, data_ := data }

/-- Method `get_data`. -/
def Tensor.get_data {F : Type} (t : Tensor F) : List F := t.data_

/-- Method `get_dims`. -/
def Tensor.get_dims {F : Type} (t : Tensor F) : List Int := t.dims_

/-! ## Checked memory accesses -/

/-- Read of element `i` (an `int` index) of a buffer; `none` when out of range. -/
def readAt {α : Type} (buf : List α) (i : Int) : Option α :=
  if 0 ≤ i then buf[i.toNat]? else none

/-- Write of element `i` of a buffer; `none` when out of range. -/
def writeAt {α : Type} (buf : List α) (i : Nat) (v : α) : Option (List α) :=
  if i < buf.length then some (buf.set i v) else none

/-! ## The builder (src/buildLut.h) -/

/-- The three caller-owned buffers behind `LUT`, `valid` and `volume`. -/
structure Buffers (F : Type) where
  /-- Contents of `LUT`. -/
  LUT : List Int
  /-- Contents of `valid`. -/
  valid : List Int
  /-- Contents of `volume`. -/
  volume : List F
deriving DecidableEq

/-- Buffers together with the running `size_t offset`. -/
structure LoopState (F : Type) where
  /-- The buffers. -/
  bufs : Buffers F
  /-- The counter `offset`. -/
  offset : Nat

/-- The `int` expression `(img * 3 + i) * 4 + j` indexing the projection data. -/
def projIndex (img i j : Int) : Int :=
  wrap32 (wrap32 (wrap32 (wrap32 (img * 3) + i) * 4) + j)

/-- The expression `(idx - n / 2.0f) * size + origin` of one axis. -/
def worldCoord {F : Type} (A : FloatOps F) (idx n : Int) (size origin : F) : F :=
  A.add (A.mul (A.sub (A.ofInt idx) (A.div (A.ofInt n) A.two)) size) origin

/-- One pass of the loop over `i`: `ar[i]` starts as the fourth column entry and
accumulates the three products in the order `j = 0, 1, 2`. -/
def projectRow {F : Type} (A : FloatOps F) (P : List F) (img i : Int)
    (pt0 pt1 pt2 : F) : Option F := do
  let a ← readAt P (projIndex img i 3)
  let p0 ← readAt P (projIndex img i 0)
  let a := A.add a (A.mul p0 pt0)
  let p1 ← readAt P (projIndex img i 1)
  let a := A.add a (A.mul p1 pt1)
  let p2 ← readAt P (projIndex img i 2)
  let a := A.add a (A.mul p2 pt2)
  pure a

/-- The grid and image parameters read at the top of `build_LUT_CPU`. -/
structure Params (F : Type) where
  /-- Local `n_x_voxels`. -/
  n_x : Int
  /-- Local `n_y_voxels`. -/
  n_y : Int
  /-- Local `n_z_voxels`. -/
  n_z : Int
  /-- Local `size_x`. -/
  size_x : F
  /-- Local `size_y`. -/
  size_y : F
  /-- Local `size_z`. -/
  size_z : F
  /-- Local `origin_x`. -/
  origin_x : F
  /-- Local `origin_y`. -/
  origin_y : F
  /-- Local `origin_z`. -/
  origin_z : F
  /-- The data of `projection`. -/
  P : List F
  /-- Argument `n_images`. -/
  n_images : Int
  /-- Argument `height`. -/
  height : Int
  /-- Argument `width`. -/
  width : Int

/-- The loop `for (int img = 0; img < n_images; img++)` for the voxel
`(xi, yi, zi)` whose slot is `offset`, run over the camera indices still to be
visited.  A camera passing the test writes the pair and the flag and leaves the
loop (`break`); the local `count` is never read and is left out. -/
def cameraLoop {F : Type} (A : FloatOps F) (p : Params F) (xi yi zi : Int)
    (offset : Nat) : List Nat → Buffers F → Option (Buffers F)
  | [], b => some b
  | img :: rest, b => do
    let pt0 := worldCoord A xi p.n_x p.size_x p.origin_x
    let pt1 := worldCoord A yi p.n_y p.size_y p.origin_y
    let pt2 := worldCoord A zi p.n_z p.size_z p.origin_z
    let ar0 ← projectRow A p.P img 0 pt0 pt1 pt2
    let ar1 ← projectRow A p.P img 1 pt0 pt1 pt2
    let ar2 ← projectRow A p.P img 2 pt0 pt1 pt2
    let x := A.round (A.div ar0 ar2)
    let y := A.round (A.div ar1 ar2)
    let z := ar2
    if x ≥ 0 ∧ y ≥ 0 ∧ x < p.width ∧ y < p.height ∧ A.lt (A.ofInt 0) z = true then do
      let l ← writeAt b.LUT (wrap64 (offset * 2)) (img : Int)
      let l ← writeAt l (wrap64 (offset * 2) + 1) (wrap32 (wrap32 (y * p.width) + x))
      let v ← writeAt b.valid offset 1
      pure { LUT := l, valid := v, volume := b.volume }
    else
      cameraLoop A p xi yi zi offset rest b

/-- The body of the innermost voxel loop: reset the pair to `(-1, 0)`, scan the
cameras, then `++offset`. -/
def voxelBody {F : Type} (A : FloatOps F) (p : Params F) (zi yi xi : Nat)
    (s : LoopState F) : Option (LoopState F) := do
  let l ← writeAt s.bufs.LUT (wrap64 (s.offset * 2)) (-1)
  let l ← writeAt l (wrap64 (s.offset * 2) + 1) 0
  let b ← cameraLoop A p xi yi zi s.offset (List.range p.n_images.toNat)
    { LUT := l, valid := s.bufs.valid, volume := s.bufs.volume }
  pure { bufs := b, offset := wrap64 (s.offset + 1) }

/-- A loop `for (int k = 0; k < n; ++k) body` threading the state. -/
def forRange {σ : Type} (n : Int) (body : Nat → σ → Option σ) (s : σ) : Option σ :=
  (List.range n.toNat).foldlM (fun st k => body k st) s

/-- The function `build_LUT_CPU`.  The result is the final contents of the three
buffers, or `none` if an access left its buffer.  The local `nrof_voxels` is
computed and never read; `n_channels` is never read. -/
def build_LUT_CPU {F : Type} (A : FloatOps F) (n_voxels : List Int)
    (voxel_size origin projection : Tensor F)
    (n_images height width n_channels : Int)
    (LUT valid : List Int) (volume : List F) : Option (Buffers F) := do
  let _ := n_channels
  let n_x_voxels ← n_voxels[0]?
  let n_y_voxels ← n_voxels[1]?
  let n_z_voxels ← n_voxels[2]?
  let voxel_sizep := voxel_size.get_data
  let size_x ← voxel_sizep[0]?
  let size_y ← voxel_sizep[1]?
  let size_z ← voxel_sizep[2]?
  let originp := origin.get_data
  let origin_x ← originp[0]?
  let origin_y ← originp[1]?
  let origin_z ← originp[2]?
  let _nrof_voxels := wrap32 (wrap32 (n_x_voxels * n_y_voxels) * n_z_voxels)
  let p : Params F :=
    { n_x := n_x_voxels, n_y := n_y_voxels, n_z := n_z_voxels,
      size_x := size_x, size_y := size_y, size_z := size_z,
      origin_x := origin_x, origin_y := origin_y, origin_z := origin_z,
      P := projection.get_data, n_images := n_images,
      height := height, width := width }
  let s ← forRange n_z_voxels (fun zi s =>
    forRange n_y_voxels (fun yi s =>
      forRange n_x_voxels (fun xi s => voxelBody A p zi yi xi s) s) s)
    { bufs := { LUT := LUT, valid := valid, volume := volume }, offset := 0 }
  pure s.bufs

/-! ## Calls and well-formedness -/

/-- The read-only arguments of one call of `build_LUT_CPU`; the counts are the
non-negative values of the `int32_t` arguments.  `dimsV`, `dimsO`, `dimsP` are
the shapes the three tensors were constructed with. -/
structure Call (F : Type) where
  /-- Entry `n_voxels[0]`. -/
  nx : Nat
  /-- Entry `n_voxels[1]`. -/
  ny : Nat
  /-- Entry `n_voxels[2]`. -/
  nz : Nat
  /-- Shape of `voxel_size`. -/
  dimsV : List Int
  /-- First voxel size. -/
  sx : F
  /-- Second voxel size. -/
  sy : F
  /-- Third voxel size. -/
  sz : F
  /-- Shape of `origin`. -/
  dimsO : List Int
  /-- First origin coordinate. -/
  ox : F
  /-- Second origin coordinate. -/
  oy : F
  /-- Third origin coordinate. -/
  oz : F
  /-- Shape of `projection`. -/
  dimsP : List Int
  /-- Data of `projection`. -/
  P : List F
  /-- Argument `n_images`. -/
  n_images : Nat
  /-- Argument `height`. -/
  height : Nat
  /-- Argument `width`. -/
  width : Nat

/-- Number of voxels `n_x * n_y * n_z`. -/
def Call.total {F : Type} (c : Call F) : Nat := c.nx * c.ny * c.nz

/-- The locals of the builder for the call `c`. -/
def Call.params {F : Type} (c : Call F) : Params F :=
  { n_x := c.nx, n_y := c.ny, n_z := c.nz,
    size_x := c.sx, size_y := c.sy, size_z := c.sz,
    origin_x := c.ox, origin_y := c.oy, origin_z := c.oz,
    P := c.P, n_images := c.n_images, height := c.height, width := c.width }

/-- The call `build_LUT_CPU(n_voxels, voxel_size, origin, projection, n_images,
height, width, n_channels, LUT, valid, volume)` with the arguments of `c`. -/
def Call.build {F : Type} (A : FloatOps F) (c : Call F) (n_channels : Int)
    (LUT valid : List Int) (volume : List F) : Option (Buffers F) :=
  build_LUT_CPU A [(c.nx : Int), (c.ny : Int), (c.nz : Int)]
    { dims_ := c.dimsV, data_ := [c.sx, c.sy, c.sz] }
    { dims_ := c.dimsO, data_ := [c.ox, c.oy, c.oz] }
    { dims_ := c.dimsP, data_ := c.P }
    (c.n_images : Int) (c.height : Int) (c.width : Int) n_channels LUT valid volume

/-- A well-formed call: positive `int32_t` counts, three tensors accepted by the
`Tensor` constructor with 3, 3 and `12 * n_images` values, and output buffers
of `2 * total` and `total` elements whose sizes are `size_t` values. -/
structure WellFormed {F : Type} (c : Call F) (LUT valid : List Int) : Prop where
  /-- Positive `n_x`. -/
  nx_pos : 0 < c.nx
  /-- Positive `n_y`. -/
  ny_pos : 0 < c.ny
  /-- Positive `n_z`. -/
  nz_pos : 0 < c.nz
  /-- Range of `int32_t`. -/
  nx_lt : c.nx < 2147483648
  /-- Range of `int32_t`. -/
  ny_lt : c.ny < 2147483648
  /-- Range of `int32_t`. -/
  nz_lt : c.nz < 2147483648
  /-- Positive `n_images`. -/
  n_images_pos : 0 < c.n_images
  /-- Range of `int32_t`. -/
  n_images_lt : c.n_images < 2147483648
  /-- Positive `height`. -/
  height_pos : 0 < c.height
  /-- Range of `int32_t`. -/
  height_lt : c.height < 2147483648
  /-- Positive `width`. -/
  width_pos : 0 < c.width
  /-- Range of `int32_t`. -/
  width_lt : c.width < 2147483648
  /-- The tensor `voxel_size` was built by the constructor. -/
  voxel_size_ok : Tensor.construct c.dimsV [c.sx, c.sy, c.sz]
    = Except.ok { dims_ := c.dimsV, data_ := [c.sx, c.sy, c.sz] }
  /-- The tensor `origin` was built by the constructor. -/
  origin_ok : Tensor.construct c.dimsO [c.ox, c.oy, c.oz]
    = Except.ok { dims_ := c.dimsO, data_ := [c.ox, c.oy, c.oz] }
  /-- The tensor `projection` was built by the constructor. -/
  projection_ok : Tensor.construct c.dimsP c.P
    = Except.ok { dims_ := c.dimsP, data_ := c.P }
  /-- Twelve projection entries per camera. -/
  projection_len : c.P.length = 12 * c.n_images
  /-- Size of `LUT`. -/
  lut_len : LUT.length = 2 * c.total
  /-- Size of `valid`. -/
  valid_len : valid.length = c.total
  /-- The size of `LUT` is a `size_t`. -/
  lut_size_t : LUT.length < 18446744073709551616

/-! ## The visibility test, per voxel and camera -/

/-- Entry `P[(3c+i)*4+j]` of the projection data. -/
def projEntry {F : Type} (A : FloatOps F) (P : List F) (cam i j : Nat) : F :=
  P.getD ((3 * cam + i) * 4 + j) (A.ofInt 0)

/-- The value `ar_i = P[(3c+i)*4+3] + sum over j of P[(3c+i)*4+j] * pt_j`, the
sum taken in the order `j = 0, 1, 2`. -/
def arOf {F : Type} (A : FloatOps F) (P : List F) (cam i : Nat) (pt0 pt1 pt2 : F) : F :=
  A.add (A.add (A.add (projEntry A P cam i 3) (A.mul (projEntry A P cam i 0) pt0))
    (A.mul (projEntry A P cam i 1) pt1)) (A.mul (projEntry A P cam i 2) pt2)

/-- Component `i` of the projection of voxel `(xi, yi, zi)` by camera `cam`. -/
def Call.ar {F : Type} (A : FloatOps F) (c : Call F) (xi yi zi cam i : Nat) : F :=
  arOf A c.P cam i
    (worldCoord A xi c.nx c.sx c.ox)
    (worldCoord A yi c.ny c.sy c.oy)
    (worldCoord A zi c.nz c.sz c.oz)

/-- Rounded image column `x = round(ar_0 / ar_2)`. -/
def Call.px {F : Type} (A : FloatOps F) (c : Call F) (xi yi zi cam : Nat) : Int :=
  A.round (A.div (c.ar A xi yi zi cam 0) (c.ar A xi yi zi cam 2))

/-- Rounded image row `y = round(ar_1 / ar_2)`. -/
def Call.py {F : Type} (A : FloatOps F) (c : Call F) (xi yi zi cam : Nat) : Int :=
  A.round (A.div (c.ar A xi yi zi cam 1) (c.ar A xi yi zi cam 2))

/-- The visibility test of camera `cam` for voxel `(xi, yi, zi)`. -/
def Call.passes {F : Type} (A : FloatOps F) (c : Call F) (xi yi zi cam : Nat) : Bool :=
  decide (0 ≤ c.px A xi yi zi cam ∧ c.px A xi yi zi cam < c.width ∧
    0 ≤ c.py A xi yi zi cam ∧ c.py A xi yi zi cam < c.height) &&
  A.lt (A.ofInt 0) (c.ar A xi yi zi cam 2)

/-- The value the builder stores for the pixel, the `int` expression
`y * width + x`. -/
def Call.pixel {F : Type} (A : FloatOps F) (c : Call F) (xi yi zi cam : Nat) : Int :=
  wrap32 (wrap32 (c.py A xi yi zi cam * c.width) + c.px A xi yi zi cam)

/-- First camera, in ascending order, that passes the test for the voxel. -/
def Call.firstVisible {F : Type} (A : FloatOps F) (c : Call F) (xi yi zi : Nat) :
    Option Nat :=
  (List.range c.n_images).find? (fun cam => c.passes A xi yi zi cam)

/-- Flat row-major index `zi*n_y*n_x + yi*n_x + xi`. -/
def Call.flat {F : Type} (c : Call F) (xi yi zi : Nat) : Nat :=
  zi * c.ny * c.nx + yi * c.nx + xi

/-! ## Closed forms of the result -/

/-- Effect of a camera hit on the buffers. -/
def recordHit {F : Type} (b : Buffers F) (off : Nat) (cam : Nat) (pix : Int) : Buffers F :=
  { LUT := (b.LUT.set (off * 2) (cam : Int)).set (off * 2 + 1) pix,
    valid := b.valid.set off 1, volume := b.volume }

/-- Final `LUT` pair of the voxel `(xi, yi, zi)`: `(-1, 0)` when no camera
passes the test, otherwise the first passing camera and its pixel value. -/
def Call.pairOf {F : Type} (A : FloatOps F) (c : Call F) (xi yi zi : Nat) : Int × Int :=
  match c.firstVisible A xi yi zi with
  | none => (-1, 0)
  | some cam => ((cam : Int), c.pixel A xi yi zi cam)

/-- Final flag of the voxel `(xi, yi, zi)` whose slot held `old` before the
call: `1` when some camera passes the test, otherwise `old`. -/
def Call.flagOf {F : Type} (A : FloatOps F) (c : Call F) (xi yi zi : Nat) (old : Int) : Int :=
  match c.firstVisible A xi yi zi with
  | none => old
  | some _ => 1

/-- The voxel whose flat index is `k`. -/
def Call.decode {F : Type} (c : Call F) (k : Nat) : Nat × Nat × Nat :=
  (k % c.nx, (k / c.nx) % c.ny, k / (c.nx * c.ny))

/-- Final `LUT` pair of the slot `k`. -/
def Call.pairAt {F : Type} (A : FloatOps F) (c : Call F) (k : Nat) : Int × Int :=
  c.pairOf A (c.decode k).1 (c.decode k).2.1 (c.decode k).2.2

/-- Final flag of the slot `k` that held `old` before the call. -/
def Call.flagAt {F : Type} (A : FloatOps F) (c : Call F) (k : Nat) (old : Int) : Int :=
  c.flagOf A (c.decode k).1 (c.decode k).2.1 (c.decode k).2.2 old

/-- State of the builder after the first `k` voxels, from initial buffers
`L0`, `V0`, `vol0`: the counter is `k`, slots below `k` are final, all other
elements are untouched. -/
structure Done {F : Type} (A : FloatOps F) (c : Call F) (L0 V0 : List Int) (vol0 : List F)
    (k : Nat) (s : LoopState F) : Prop where
  /-- The counter. -/
  offset_eq : s.offset = k
  /-- Size of `LUT`. -/
  lut_len : s.bufs.LUT.length = L0.length
  /-- Size of `valid`. -/
  valid_len : s.bufs.valid.length = V0.length
  /-- The buffer `volume`. -/
  volume_eq : s.bufs.volume = vol0
  /-- Camera entries of processed slots. -/
  cam_done : ∀ o, o < k → s.bufs.LUT[2 * o]? = some (c.pairAt A o).1
  /-- Pixel entries of processed slots. -/
  pix_done : ∀ o, o < k → s.bufs.LUT[2 * o + 1]? = some (c.pairAt A o).2
  /-- Flags of processed slots. -/
  flag_done : ∀ o, o < k → s.bufs.valid[o]? = some (c.flagAt A o (V0.getD o 0))
  /-- Pairs of the slots still to come. -/
  lut_rest : ∀ i, 2 * k ≤ i → s.bufs.LUT[i]? = L0[i]?
  /-- Flags of the slots still to come. -/
  valid_rest : ∀ o, k ≤ o → s.bufs.valid[o]? = V0[o]?

/-- The table of the data-parallel formulation: entry `i` is written by the
worker of flat index `i / 2`, which finds its voxel by index arithmetic. -/
def Call.parallelLUT {F : Type} (A : FloatOps F) (c : Call F) : List Int :=
  (List.range (2 * c.total)).map
    (fun i => if i % 2 = 0 then (c.pairAt A (i / 2)).1 else (c.pairAt A (i / 2)).2)

/-- The flags of the data-parallel formulation, from the initial flags `V0`. -/
def Call.parallelValid {F : Type} (A : FloatOps F) (c : Call F) (V0 : List Int) : List Int :=
  (List.range c.total).map (fun k => c.flagAt A k (V0.getD k 0))

/-- The buffers `b` with the `volume` component replaced by `v`. -/
def Buffers.withVolume {F : Type} (v : List F) (b : Buffers F) : Buffers F :=
  { LUT := b.LUT, valid := b.valid, volume := v }

/-- The state `s` with the `volume` component replaced by `v`. -/
def LoopState.withVolume {F : Type} (v : List F) (s : LoopState F) : LoopState F :=
  { bufs := s.bufs.withVolume v, offset := s.offset }

/-! ## The duplicate of the builder in src/main.cpp -/

/-- The `Tensor` class of src/main.cpp: the data and the shape, stored as given. -/
structure Main.Tensor (F : Type) where
  /-- Field `data_`. -/
  data_ : List F
  /-- Field `shape_`. -/
  shape_ : List Int

/-- The constructor `Tensor(data, shape)` of src/main.cpp; it checks nothing. -/
def Main.Tensor.construct {F : Type} (data : List F) (shape : List Int) : Main.Tensor F :=
  { data_ := data, shape_ := shape }

/-- Method `get_data` of src/main.cpp. -/
def Main.Tensor.get_data {F : Type} (t : Main.Tensor F) : List F := t.data_

/-- Method `shape` of src/main.cpp. -/
def Main.Tensor.shape {F : Type} (t : Main.Tensor F) : List Int := t.shape_

/-- The loops over `i` and `j` of src/main.cpp for one row `i`: `ar[i]` is set to
the entry of column 3, then the loop over `j = 0, 1, 2` adds
`projection[(img * 3 + i) * 4 + j] * pt[j]`. -/
def Main.arRow {F : Type} (A : FloatOps F) (projection : List F) (img i : Int)
    (pt : List F) : Option F := do
  let ar_i ← readAt projection (wrap32 (wrap32 (wrap32 (wrap32 (img * 3) + i) * 4) + 3))
  [0, 1, 2].foldlM (fun (acc : F) (j : Nat) => do
    let entry ← readAt projection (wrap32 (wrap32 (wrap32 (wrap32 (img * 3) + i) * 4) + (j : Int)))
    let pt_j ← pt[j]?
    pure (A.add acc (A.mul entry pt_j))) ar_i

/-- The loop over `img` of src/main.cpp (lines 82 to 127) for the voxel
`(xi, yi, zi)` and the slot `offset`; the locals of the enclosing function are
passed as arguments. -/
def Main.cameraLoop {F : Type} (A : FloatOps F) (n_x_voxels n_y_voxels n_z_voxels : Int)
    (size_x size_y size_z origin_x origin_y origin_z : F) (projection : List F)
    (height width : Int) (xi yi zi : Int) (offset : Nat) :
    List Nat → Buffers F → Option (Buffers F)
  | [], b => some b
  | img :: rest, b => do
    let pt : List F :=
      [A.add (A.mul (A.sub (A.ofInt xi) (A.div (A.ofInt n_x_voxels) A.two)) size_x) origin_x,
       A.add (A.mul (A.sub (A.ofInt yi) (A.div (A.ofInt n_y_voxels) A.two)) size_y) origin_y,
       A.add (A.mul (A.sub (A.ofInt zi) (A.div (A.ofInt n_z_voxels) A.two)) size_z) origin_z]
    let ar0 ← Main.arRow A projection img 0 pt
    let ar1 ← Main.arRow A projection img 1 pt
    let ar2 ← Main.arRow A projection img 2 pt
    let x := A.round (A.div ar0 ar2)
    let y := A.round (A.div ar1 ar2)
    let z := ar2
    if x ≥ 0 ∧ y ≥ 0 ∧ x < width ∧ y < height ∧ A.lt (A.ofInt 0) z = true then do
      let l ← writeAt b.LUT (wrap64 (offset * 2)) (img : Int)
      let l ← writeAt l (wrap64 (offset * 2) + 1) (wrap32 (wrap32 (y * width) + x))
      let v ← writeAt b.valid offset 1
      pure { LUT := l, valid := v, volume := b.volume }
    else
      Main.cameraLoop A n_x_voxels n_y_voxels n_z_voxels size_x size_y size_z
        origin_x origin_y origin_z projection height width xi yi zi offset rest b

/-- The function `build_LUT_CPU` of src/main.cpp (lines 42 to 132). -/
def Main.build_LUT_CPU {F : Type} (A : FloatOps F) (n_voxels : List Int)
    (voxel_size origin projection : Main.Tensor F)
    (n_images height width n_channels : Int)
    (LUT valid : List Int) (volume : List F) : Option (Buffers F) := do
  let _ := n_channels
  let n_x_voxels ← n_voxels[0]?
  let n_y_voxels ← n_voxels[1]?
  let n_z_voxels ← n_voxels[2]?
  let voxel_sizep := voxel_size.get_data
  let size_x ← voxel_sizep[0]?
  let size_y ← voxel_sizep[1]?
  let size_z ← voxel_sizep[2]?
  let originp := origin.get_data
  let origin_x ← originp[0]?
  let origin_y ← originp[1]?
  let origin_z ← originp[2]?
  let _nrof_voxels := wrap32 (wrap32 (n_x_voxels * n_y_voxels) * n_z_voxels)
  let s ← forRange n_z_voxels (fun zi s =>
    forRange n_y_voxels (fun yi s =>
      forRange n_x_voxels (fun xi (s : LoopState F) => do
        let l ← writeAt s.bufs.LUT (wrap64 (s.offset * 2)) (-1)
        let l ← writeAt l (wrap64 (s.offset * 2) + 1) 0
        let b ← Main.cameraLoop A n_x_voxels n_y_voxels n_z_voxels size_x size_y size_z
          origin_x origin_y origin_z projection.get_data height width xi yi zi s.offset
          (List.range n_images.toNat)
          { LUT := l, valid := s.bufs.valid, volume := s.bufs.volume }
        pure { bufs := b, offset := wrap64 (s.offset + 1) }) s) s)
    { bufs := { LUT := LUT, valid := valid, volume := volume }, offset := 0 }
  pure s.bufs

/-- The call of src/main.cpp's `build_LUT_CPU` with the arguments of `c`; the
three tensors carry the shapes `shapeV`, `shapeO`, `shapeP`. -/
def Call.buildMain {F : Type} (A : FloatOps F) (c : Call F) (shapeV shapeO shapeP : List Int)
    (n_channels : Int) (LUT valid : List Int) (volume : List F) : Option (Buffers F) :=
  Main.build_LUT_CPU A [(c.nx : Int), (c.ny : Int), (c.nz : Int)]
    (Main.Tensor.construct [c.sx, c.sy, c.sz] shapeV)
    (Main.Tensor.construct [c.ox, c.oy, c.oz] shapeO)
    (Main.Tensor.construct c.P shapeP)
    (c.n_images : Int) (c.height : Int) (c.width : Int) n_channels LUT valid volume

/-! ## The visibility test on its own, more cameras, other camera orders -/

/-- The condition of the `if` of the builder on the projected values
`ar[0]`, `ar[1]`, `ar[2]` of one camera:
`x >= 0 && y >= 0 && x < width && y < height && z > 0` with
`x = round(ar[0] / ar[2])`, `y = round(ar[1] / ar[2])`, `z = ar[2]`. -/
def visibilityTest {F : Type} (A : FloatOps F) (ar0 ar1 ar2 : F) (width height : Int) : Prop :=
  A.round (A.div ar0 ar2) ≥ 0 ∧ A.round (A.div ar1 ar2) ≥ 0 ∧
    A.round (A.div ar0 ar2) < width ∧ A.round (A.div ar1 ar2) < height ∧
    A.lt (A.ofInt 0) ar2 = true

/-- The call `c` with one more camera: the twelve entries `M` appended to the
projection data, which then has the shape `dimsP`. -/
def Call.appendCamera {F : Type} (c : Call F) (dimsP : List Int) (M : List F) : Call F :=
  { c with dimsP := dimsP, P := c.P ++ M, n_images := c.n_images + 1 }

/-- The camera that a permutation `σ` of the camera indices puts at position
`cam`. -/
def permIndex {n : Nat} (σ : Equiv.Perm (Fin n)) (cam : Nat) : Nat :=
  if h : cam < n then (σ ⟨cam, h⟩).val else cam

/-- Projection data of `n` cameras in the order given by `σ`: the matrix at
position `cam` is the matrix `σ cam` of `P`. -/
def permutedData {F : Type} (A : FloatOps F) (P : List F) (n : Nat)
    (σ : Equiv.Perm (Fin n)) : List F :=
  (List.range (12 * n)).map
    (fun k => P.getD (12 * permIndex σ (k / 12) + k % 12) (A.ofInt 0))

/-- The call `c` with its projection matrices permuted: camera `cam` of the new
call is camera `σ cam` of `c`. -/
def Call.permuteCameras {F : Type} (A : FloatOps F) (c : Call F)
    (σ : Equiv.Perm (Fin c.n_images)) : Call F :=
  { c with P := permutedData A c.P c.n_images σ }

/-! ## Concrete calls -/

/-- The call of `test_build_LUT_CPU` (src/main.cpp): a `2 x 2 x 2` grid of unit
voxels, one camera, a `2 x 2` image. -/
def demoCall : Call ℚ :=
  { nx := 2, ny := 2, nz := 2,
    dimsV := [3], sx := 1, sy := 1, sz := 1,
    dimsO := [3], ox := 0, oy := 0, oz := 0,
    dimsP := [1, 3, 4],
    P := [1, 0, 0, 0,
          0, 1, 0, 0,
          0, 0, 1, 1],
    n_images := 1, height := 2, width := 2 }

/-- The `LUT` buffer of the test, filled with `-1`. -/
def demoLUT : List Int := List.replicate 16 (-1)

/-- The `valid` buffer of the test, filled with `0`. -/
def demoValid : List Int := List.replicate 8 0

/-- One voxel and one camera that maps every point to pixel `(65535, 65535)` of
a `65536 x 65536` image at depth `1`. -/
def wideCall : Call ℚ :=
  { nx := 1, ny := 1, nz := 1,
    dimsV := [3], sx := 1, sy := 1, sz := 1,
    dimsO := [3], ox := 0, oy := 0, oz := 0,
    dimsP := [1, 3, 4],
    P := [0, 0, 0, 65535,
          0, 0, 0, 65535,
          0, 0, 0, 1],
    n_images := 1, height := 65536, width := 65536 }

/-- One voxel and one camera whose projection matrix is zero, so that the depth
is `0` and the voxel is not observed. -/
def blindCall : Call ℚ :=
  { nx := 1, ny := 1, nz := 1,
    dimsV := [3], sx := 1, sy := 1, sz := 1,
    dimsO := [3], ox := 0, oy := 0, oz := 0,
    dimsP := [1, 3, 4],
    P := [0, 0, 0, 0,
          0, 0, 0, 0,
          0, 0, 0, 0],
    n_images := 1, height := 2, width := 2 }

/-- A second camera for the test grid: the camera of the test moved back by one
more unit of depth. -/
def farCamera : List ℚ :=
  [1, 0, 0, 0,
   0, 1, 0, 0,
   0, 0, 1, 2]

/-- The test call with the two cameras `farCamera` and the camera of the test,
in this order. -/
def twoCamCall : Call ℚ :=
  { nx := 2, ny := 2, nz := 2,
    dimsV := [3], sx := 1, sy := 1, sz := 1,
    dimsO := [3], ox := 0, oy := 0, oz := 0,
    dimsP := [2, 3, 4],
    P := [1, 0, 0, 0,
          0, 1, 0, 0,
          0, 0, 1, 2,
          1, 0, 0, 0,
          0, 1, 0, 0,
          0, 0, 1, 1],
    n_images := 2, height := 2, width := 2 }

/-- Twelve voxels along `x` of size `0.7f` (the binary32 value
`11744051 / 2^24`), one camera that maps the point `(X, Y, Z)` to the pixel
`(X, Y)` at depth `1`, an image of width `8` and height `1`. -/
def roundingCall : Call ℚ :=
  { nx := 12, ny := 1, nz := 1,
    dimsV := [3], sx := 11744051 / 16777216, sy := 1, sz := 1,
    dimsO := [3], ox := 0, oy := 1 / 2, oz := 0,
    dimsP := [1, 3, 4],
    P := [1, 0, 0, 0,
          0, 1, 0, 0,
          0, 0, 0, 1],
    n_images := 1, height := 1, width := 8 }

/-- The exchange of the two cameras of `twoCamCall`. -/
def swapCameras : Equiv.Perm (Fin 2) := Equiv.swap 0 1

/-- No running product of the loop `total_size *= dim`, started at `acc`, leaves
the range of `int`. -/
def Tensor.productFits : Int → List Int → Bool
  | _, [] => true
  | acc, dim :: rest =>
    decide (-2147483648 ≤ acc * dim ∧ acc * dim < 2147483648) &&
      Tensor.productFits (acc * dim) rest

/-- The five float operations of the expression `(idx - n / 2.0f) * size + origin`
are exact at their operands, when a float `v` is read as the rational `val v`:
the two conversions, the literal, the division, the subtraction, the product
and the sum give the mathematical results. -/
structure ExactAt {F : Type} (A : FloatOps F) (val : F → ℚ) (idx n : Int)
    (size origin : F) : Prop where
  /-- The conversion of `idx`. -/
  ofInt_idx : val (A.ofInt idx) = (idx : ℚ)
  /-- The conversion of `n`. -/
  ofInt_n : val (A.ofInt n) = (n : ℚ)
  /-- The literal `2.0f`. -/
  two : val A.two = 2
  /-- The division `n / 2.0f`. -/
  div : val (A.div (A.ofInt n) A.two) = val (A.ofInt n) / val A.two
  /-- The subtraction `idx - n / 2.0f`. -/
  sub : val (A.sub (A.ofInt idx) (A.div (A.ofInt n) A.two)) =
    val (A.ofInt idx) - val (A.div (A.ofInt n) A.two)
  /-- The product with `size`. -/
  mul : val (A.mul (A.sub (A.ofInt idx) (A.div (A.ofInt n) A.two)) size) =
    val (A.sub (A.ofInt idx) (A.div (A.ofInt n) A.two)) * val size
  /-- The sum with `origin`. -/
  add : val (A.add (A.mul (A.sub (A.ofInt idx) (A.div (A.ofInt n) A.two)) size) origin) =
    val (A.mul (A.sub (A.ofInt idx) (A.div (A.ofInt n) A.two)) size) + val origin

/-! ## Lemmas -/

theorem wrap32_of_range (v : Int) (h0 : -2147483648 ≤ v) (h1 : v < 2147483648) :
    wrap32 v = v := by
  unfold wrap32; omega

theorem wrap32_range (v : Int) : -2147483648 ≤ wrap32 v ∧ wrap32 v < 2147483648 := by
  unfold wrap32; omega

theorem wrap64_of_lt (n : Nat) (h : n < 18446744073709551616) : wrap64 n = n := by
  unfold wrap64; omega

theorem projIndex_eq (img i j n : Nat) (himg : img < n) (hn : 12 * n < 2147483648)
    (hi : i < 3) (hj : j < 4) :
    projIndex (img : Int) (i : Int) (j : Int) = (((3 * img + i) * 4 + j : Nat) : Int) := by
  unfold projIndex wrap32; push_cast; omega

theorem total_size_range (dims : List Int) :
    -2147483648 ≤ Tensor.total_size dims ∧ Tensor.total_size dims < 2147483648 := by
  unfold Tensor.total_size
  suffices h : ∀ (l : List Int) (a : Int), (-2147483648 ≤ a ∧ a < 2147483648) →
      (-2147483648 ≤ l.foldl (fun acc dim => wrap32 (acc * dim)) a ∧
        l.foldl (fun acc dim => wrap32 (acc * dim)) a < 2147483648) from
    h dims 1 (by omega)
  intro l
  induction l with
  | nil => intro a ha; simpa using ha
  | cons d t ih => intro a _; simpa using ih _ (wrap32_range _)

/-- A tensor accepted by the constructor whose size is below `2^35` has fewer
than `2^31` elements: its `int` element count equals `data.size()`. -/
theorem construct_ok_length {F : Type} (dims : List Int) (data : List F) (t : Tensor F)
    (h : Tensor.construct dims data = Except.ok t) (hlen : data.length < 34359738368) :
    data.length < 2147483648 := by
  unfold Tensor.construct at h
  split at h
  · simp at h
  · split at h
    · simp at h
    · rename_i _ hne
      have hr := total_size_range dims
      have heq : toSizeT (Tensor.total_size dims) = data.length := by
        by_contra hc; exact hne hc
      unfold toSizeT at heq
      omega

theorem readAt_natCast {α : Type} (buf : List α) (k : Nat) (d : α) (h : k < buf.length) :
    readAt buf (k : Int) = some (buf.getD k d) := by
  unfold readAt
  simp [List.getD, List.getElem?_eq_getElem h]

theorem projectRow_eq {F : Type} (A : FloatOps F) (P : List F) (img i n : Nat)
    (pt0 pt1 pt2 : F) (himg : img < n) (hn : 12 * n < 2147483648)
    (hP : P.length = 12 * n) (hi : i < 3) :
    projectRow A P (img : Int) (i : Int) pt0 pt1 pt2 = some (arOf A P img i pt0 pt1 pt2) := by
  have e3 := projIndex_eq img i 3 n himg hn hi (by omega)
  have e0 := projIndex_eq img i 0 n himg hn hi (by omega)
  have e1 := projIndex_eq img i 1 n himg hn hi (by omega)
  have e2 := projIndex_eq img i 2 n himg hn hi (by omega)
  simp only [Nat.cast_ofNat, Nat.cast_zero, Nat.cast_one] at e3 e0 e1 e2
  unfold projectRow
  rw [e3, e0, e1, e2]
  rw [readAt_natCast P _ (A.ofInt 0) (by omega), readAt_natCast P _ (A.ofInt 0) (by omega),
    readAt_natCast P _ (A.ofInt 0) (by omega), readAt_natCast P _ (A.ofInt 0) (by omega)]
  rfl

theorem cameraLoop_eq {F : Type} (A : FloatOps F) (c : Call F) (xi yi zi off : Nat)
    (hP : c.P.length = 12 * c.n_images) (hn : 12 * c.n_images < 2147483648)
    (b : Buffers F) (hoff : off * 2 + 1 < b.LUT.length) (hv : off < b.valid.length)
    (h64 : b.LUT.length < 18446744073709551616) (cams : List Nat)
    (hc : ∀ m ∈ cams, m < c.n_images) :
    cameraLoop A c.params (xi : Int) (yi : Int) (zi : Int) off cams b =
      some (match cams.find? (fun cam => c.passes A xi yi zi cam) with
        | none => b
        | some cam => recordHit b off cam (c.pixel A xi yi zi cam)) := by
  induction cams with
  | nil => simp [cameraLoop]
  | cons img rest ih =>
    have himg : img < c.n_images := hc img (by simp)
    have ih := ih (fun m hm => hc m (by simp [hm]))
    have r0 := projectRow_eq A c.P img 0 c.n_images
      (worldCoord A xi c.nx c.sx c.ox) (worldCoord A yi c.ny c.sy c.oy)
      (worldCoord A zi c.nz c.sz c.oz) himg hn hP (by omega)
    have r1 := projectRow_eq A c.P img 1 c.n_images
      (worldCoord A xi c.nx c.sx c.ox) (worldCoord A yi c.ny c.sy c.oy)
      (worldCoord A zi c.nz c.sz c.oz) himg hn hP (by omega)
    have r2 := projectRow_eq A c.P img 2 c.n_images
      (worldCoord A xi c.nx c.sx c.ox) (worldCoord A yi c.ny c.sy c.oy)
      (worldCoord A zi c.nz c.sz c.oz) himg hn hP (by omega)
    simp only [Nat.cast_ofNat, Nat.cast_zero, Nat.cast_one] at r0 r1 r2
    have hw : wrap64 (off * 2) = off * 2 := wrap64_of_lt _ (by omega)
    rw [cameraLoop]
    simp only [Call.params, r0, r1, r2, hw, Option.bind_eq_bind, Option.some_bind,
      Option.pure_def, List.find?_cons]
    by_cases hp : c.passes A xi yi zi img = true
    · have hcond : c.px A xi yi zi img ≥ 0 ∧ c.py A xi yi zi img ≥ 0 ∧
          c.px A xi yi zi img < c.width ∧ c.py A xi yi zi img < c.height ∧
          A.lt (A.ofInt 0) (c.ar A xi yi zi img 2) = true := by
        simp only [Call.passes, Bool.and_eq_true, decide_eq_true_eq] at hp
        obtain ⟨⟨h1, h2, h3, h4⟩, h5⟩ := hp
        exact ⟨h1, h3, h2, h4, h5⟩
      simp only [Call.px, Call.py, Call.ar] at hcond
      rw [if_pos hcond, hp]
      simp [writeAt, hoff, hv, recordHit, Call.pixel, Call.px, Call.py, Call.ar,
        Nat.lt_of_succ_lt hoff]
    · have hcond : ¬ (c.px A xi yi zi img ≥ 0 ∧ c.py A xi yi zi img ≥ 0 ∧
          c.px A xi yi zi img < c.width ∧ c.py A xi yi zi img < c.height ∧
          A.lt (A.ofInt 0) (c.ar A xi yi zi img 2) = true) := by
        intro ⟨h1, h3, h2, h4, h5⟩
        apply hp
        simp only [Call.passes, Bool.and_eq_true, decide_eq_true_eq]
        exact ⟨⟨h1, h2, h3, h4⟩, h5⟩
      simp only [Call.px, Call.py, Call.ar] at hcond
      rw [if_neg hcond]
      simp only [Bool.not_eq_true] at hp
      rw [hp]
      exact ih

theorem set_pair_reset (L : List Int) (a : Nat) (u v x y : Int) :
    (((L.set a u).set (a + 1) v).set a x).set (a + 1) y = (L.set a x).set (a + 1) y := by
  apply List.ext_getElem?
  intro i
  simp only [List.getElem?_set, List.length_set]
  split_ifs <;> rfl

theorem voxelBody_eq {F : Type} (A : FloatOps F) (c : Call F) (xi yi zi : Nat)
    (hP : c.P.length = 12 * c.n_images) (hn : 12 * c.n_images < 2147483648)
    (s : LoopState F) (hoff : s.offset * 2 + 1 < s.bufs.LUT.length)
    (hv : s.offset < s.bufs.valid.length)
    (h64 : s.bufs.LUT.length < 18446744073709551616) :
    voxelBody A c.params zi yi xi s = some
      { bufs :=
          { LUT := (s.bufs.LUT.set (s.offset * 2) (c.pairOf A xi yi zi).1).set
              (s.offset * 2 + 1) (c.pairOf A xi yi zi).2,
            valid := match c.firstVisible A xi yi zi with
              | none => s.bufs.valid
              | some _ => s.bufs.valid.set s.offset 1,
            volume := s.bufs.volume },
        offset := s.offset + 1 } := by
  have hw : wrap64 (s.offset * 2) = s.offset * 2 := wrap64_of_lt _ (by omega)
  have hw1 : wrap64 (s.offset + 1) = s.offset + 1 := wrap64_of_lt _ (by omega)
  have hcam := cameraLoop_eq A c xi yi zi s.offset hP hn
    { LUT := (s.bufs.LUT.set (s.offset * 2) (-1)).set (s.offset * 2 + 1) 0,
      valid := s.bufs.valid, volume := s.bufs.volume }
    (by simpa using hoff) hv (by simpa using h64) (List.range c.n_images)
    (fun m hm => List.mem_range.mp hm)
  unfold voxelBody
  simp only [hw, hw1, writeAt, Nat.lt_of_succ_lt hoff, hoff, List.length_set, if_true,
    Option.bind_eq_bind, Option.some_bind, Option.pure_def, Call.params, Int.toNat_ofNat]
  have hcam2 := hcam
  simp only [Call.params] at hcam2
  rw [hcam2]
  unfold Call.pairOf Call.firstVisible
  cases (List.range c.n_images).find? (fun cam => c.passes A xi yi zi cam) with
  | none => simp
  | some cam => simp [recordHit, set_pair_reset]

theorem flat_lt_total {F : Type} (c : Call F) (xi yi zi : Nat)
    (hx : xi < c.nx) (hy : yi < c.ny) (hz : zi < c.nz) : c.flat xi yi zi < c.total := by
  unfold Call.flat Call.total
  have h1 : zi * c.ny * c.nx + yi * c.nx + xi < (zi * c.ny + yi + 1) * c.nx := by
    have : (zi * c.ny + yi + 1) * c.nx = zi * c.ny * c.nx + yi * c.nx + c.nx := by ring
    omega
  have h2 : (zi * c.ny + yi + 1) * c.nx ≤ ((zi + 1) * c.ny) * c.nx :=
    Nat.mul_le_mul_right _ (by
      have : (zi + 1) * c.ny = zi * c.ny + c.ny := by ring
      omega)
  have h3 : ((zi + 1) * c.ny) * c.nx ≤ (c.nz * c.ny) * c.nx :=
    Nat.mul_le_mul_right _ (Nat.mul_le_mul_right _ hz)
  have h4 : (c.nz * c.ny) * c.nx = c.nx * c.ny * c.nz := by ring
  omega

theorem decode_flat {F : Type} (c : Call F) (xi yi zi : Nat)
    (hx : xi < c.nx) (hy : yi < c.ny) : c.decode (c.flat xi yi zi) = (xi, yi, zi) := by
  unfold Call.decode Call.flat
  have e : zi * c.ny * c.nx + yi * c.nx + xi = xi + c.nx * (yi + c.ny * zi) := by ring
  have hxpos : 0 < c.nx := by omega
  have hypos : 0 < c.ny := by omega
  have d1 : (xi + c.nx * (yi + c.ny * zi)) / c.nx = yi + c.ny * zi := by
    rw [Nat.add_mul_div_left _ _ hxpos, Nat.div_eq_of_lt hx, Nat.zero_add]
  have m1 : (xi + c.nx * (yi + c.ny * zi)) % c.nx = xi := by
    rw [Nat.add_mul_mod_self_left, Nat.mod_eq_of_lt hx]
  have m2 : (yi + c.ny * zi) % c.ny = yi := by
    rw [Nat.add_mul_mod_self_left, Nat.mod_eq_of_lt hy]
  have d2 : (xi + c.nx * (yi + c.ny * zi)) / (c.nx * c.ny) = zi := by
    rw [← Nat.div_div_eq_div_mul, d1, Nat.add_mul_div_left _ _ hypos, Nat.div_eq_of_lt hy,
      Nat.zero_add]
  rw [e, d1, m1, m2, d2]

theorem flat_decode {F : Type} (c : Call F) (k : Nat) (hx : 0 < c.nx) (hy : 0 < c.ny)
    (hk : k < c.total) :
    (c.decode k).1 < c.nx ∧ (c.decode k).2.1 < c.ny ∧ (c.decode k).2.2 < c.nz ∧
      c.flat (c.decode k).1 (c.decode k).2.1 (c.decode k).2.2 = k := by
  unfold Call.decode Call.flat
  simp only
  refine ⟨Nat.mod_lt _ hx, Nat.mod_lt _ hy, ?_, ?_⟩
  · apply Nat.div_lt_of_lt_mul
    unfold Call.total at hk
    exact hk
  · have h1 := Nat.div_add_mod k c.nx
    have h2 := Nat.div_add_mod (k / c.nx) c.ny
    have h3 : k / (c.nx * c.ny) = k / c.nx / c.ny := (Nat.div_div_eq_div_mul _ _ _).symm
    rw [h3]
    calc k / c.nx / c.ny * c.ny * c.nx + k / c.nx % c.ny * c.nx + k % c.nx
        = c.nx * (c.ny * (k / c.nx / c.ny) + k / c.nx % c.ny) + k % c.nx := by ring
      _ = k := by rw [h2, h1]

theorem done_step {F : Type} (A : FloatOps F) (c : Call F) (L0 V0 : List Int) (vol0 : List F)
    (hwf : WellFormed c L0 V0) (hn : 12 * c.n_images < 2147483648)
    (xi yi zi : Nat) (hx : xi < c.nx) (hy : yi < c.ny) (hz : zi < c.nz)
    (s : LoopState F) (hs : Done A c L0 V0 vol0 (c.flat xi yi zi) s) :
    ∃ s', voxelBody A c.params zi yi xi s = some s' ∧
      Done A c L0 V0 vol0 (c.flat xi yi zi + 1) s' := by
  have hk := flat_lt_total c xi yi zi hx hy hz
  have hdec := decode_flat c xi yi zi hx hy
  have hL : s.bufs.LUT.length = 2 * c.total := hs.lut_len.trans hwf.lut_len
  have hV : s.bufs.valid.length = c.total := hs.valid_len.trans hwf.valid_len
  have hoff := hs.offset_eq
  refine ⟨_, voxelBody_eq A c xi yi zi hwf.projection_len hn s (by omega) (by omega)
    (by rw [hs.lut_len]; exact hwf.lut_size_t), ?_⟩
  have hpair : c.pairAt A (c.flat xi yi zi) = c.pairOf A xi yi zi := by
    simp [Call.pairAt, hdec]
  have hflag : ∀ old, c.flagAt A (c.flat xi yi zi) old = c.flagOf A xi yi zi old := by
    intro old; simp [Call.flagAt, hdec]
  constructor
  · simp [hoff]
  · simp [hs.lut_len]
  · simp only
    cases c.firstVisible A xi yi zi <;> simp [hs.valid_len]
  · exact hs.volume_eq
  · intro o ho
    simp only [hoff, List.getElem?_set, List.length_set]
    by_cases e : o = c.flat xi yi zi
    · subst e
      rw [if_neg (by omega), if_pos (by omega), if_pos (by omega), hpair]
    · rw [if_neg (by omega), if_neg (by omega)]
      exact hs.cam_done o (by omega)
  · intro o ho
    simp only [hoff, List.getElem?_set, List.length_set]
    by_cases e : o = c.flat xi yi zi
    · subst e
      rw [if_pos (by omega), if_pos (by omega), hpair]
    · rw [if_neg (by omega), if_neg (by omega)]
      exact hs.pix_done o (by omega)
  · intro o ho
    by_cases e : o = c.flat xi yi zi
    · subst e
      rw [hflag]
      unfold Call.flagOf
      cases c.firstVisible A xi yi zi with
      | none =>
        simp only
        rw [hs.valid_rest _ (le_refl _)]
        have : c.flat xi yi zi < V0.length := by rw [hwf.valid_len]; exact hk
        simp [List.getD, List.getElem?_eq_getElem this]
      | some cam =>
        simp only [hoff, List.getElem?_set]
        rw [if_pos trivial, if_pos (by omega)]
    · have hlt : o < c.flat xi yi zi := by omega
      have := hs.flag_done o hlt
      cases c.firstVisible A xi yi zi with
      | none => simpa using this
      | some cam =>
        simp only [hoff, List.getElem?_set]
        rw [if_neg (by omega)]
        exact this
  · intro i hi
    simp only [hoff, List.getElem?_set, List.length_set]
    rw [if_neg (by omega), if_neg (by omega)]
    exact hs.lut_rest i (by omega)
  · intro o ho
    have := hs.valid_rest o (by omega)
    cases c.firstVisible A xi yi zi with
    | none => simpa using this
    | some cam =>
      simp only [hoff, List.getElem?_set]
      rw [if_neg (by omega)]
      exact this

theorem forRange_inv {σ : Type} (n : Nat) (body : Nat → σ → Option σ)
    (Inv : Nat → σ → Prop) (s : σ) (h0 : Inv 0 s)
    (hstep : ∀ k st, k < n → Inv k st → ∃ st', body k st = some st' ∧ Inv (k + 1) st') :
    ∃ st', forRange (n : Int) body s = some st' ∧ Inv n st' := by
  unfold forRange
  simp only [Int.toNat_ofNat]
  induction n with
  | zero => exact ⟨s, by simp, h0⟩
  | succ m ih =>
    obtain ⟨st, hst, hinv⟩ := ih (fun k st hk => hstep k st (by omega))
    obtain ⟨st', hb, hinv'⟩ := hstep m st (by omega) hinv
    refine ⟨st', ?_, hinv'⟩
    rw [List.range_succ, List.foldlM_append, hst]
    simp [hb]

theorem done_init {F : Type} (A : FloatOps F) (c : Call F) (L0 V0 : List Int) (vol0 : List F) :
    Done A c L0 V0 vol0 0 { bufs := { LUT := L0, valid := V0, volume := vol0 }, offset := 0 } := by
  constructor <;> first | rfl | (intro o ho; first | omega | rfl)

theorem projection_small {F : Type} (c : Call F) (L0 V0 : List Int)
    (hwf : WellFormed c L0 V0) : 12 * c.n_images < 2147483648 := by
  have h := construct_ok_length c.dimsP c.P _ hwf.projection_ok
    (by rw [hwf.projection_len]; have := hwf.n_images_lt; omega)
  rw [hwf.projection_len] at h
  exact h

theorem loops_done {F : Type} (A : FloatOps F) (c : Call F) (L0 V0 : List Int) (vol0 : List F)
    (hwf : WellFormed c L0 V0) :
    ∃ s, forRange (c.nz : Int) (fun zi s =>
        forRange (c.ny : Int) (fun yi s =>
          forRange (c.nx : Int) (fun xi s => voxelBody A c.params zi yi xi s) s) s)
        { bufs := { LUT := L0, valid := V0, volume := vol0 }, offset := 0 } = some s ∧
      Done A c L0 V0 vol0 c.total s := by
  have hn := projection_small c L0 V0 hwf
  have hfin : c.flat 0 0 c.nz = c.total := by unfold Call.flat Call.total; ring
  rw [← hfin]
  apply forRange_inv c.nz _ (fun zi s => Done A c L0 V0 vol0 (c.flat 0 0 zi) s)
  · have : c.flat 0 0 0 = 0 := by simp [Call.flat]
    rw [this]; exact done_init A c L0 V0 vol0
  · intro zi s hz hs
    have hnext : c.flat 0 0 (zi + 1) = c.flat 0 c.ny zi := by unfold Call.flat; ring
    simp only [hnext]
    apply forRange_inv c.ny _ (fun yi s => Done A c L0 V0 vol0 (c.flat 0 yi zi) s) s hs
    intro yi s hy hs
    have hnext : c.flat 0 (yi + 1) zi = c.flat c.nx yi zi := by unfold Call.flat; ring
    simp only [hnext]
    apply forRange_inv c.nx _ (fun xi s => Done A c L0 V0 vol0 (c.flat xi yi zi) s) s hs
    intro xi s hx hs
    have hnext : c.flat (xi + 1) yi zi = c.flat xi yi zi + 1 := by unfold Call.flat; ring
    simp only [hnext]
    exact done_step A c L0 V0 vol0 hwf hn xi yi zi hx hy hz s hs

/-- Characterisation of a well-formed call: it returns, and the result is the
pointwise description `Done` at `k = total`. -/
theorem build_done {F : Type} (A : FloatOps F) (c : Call F) (n_channels : Int)
    (L0 V0 : List Int) (vol0 : List F) (hwf : WellFormed c L0 V0) :
    ∃ s, c.build A n_channels L0 V0 vol0 = some s.bufs ∧ Done A c L0 V0 vol0 c.total s := by
  obtain ⟨s, hs, hd⟩ := loops_done A c L0 V0 vol0 hwf
  refine ⟨s, ?_, hd⟩
  have hs2 := hs
  simp only [Call.params] at hs2
  simp [Call.build, build_LUT_CPU, Tensor.get_data, hs2]

theorem demo_wf : WellFormed demoCall demoLUT demoValid := by
  constructor <;> first | decide | rfl

theorem twoCam_wf : WellFormed twoCamCall demoLUT demoValid := by
  constructor <;> first | decide | rfl

theorem wide_wf : WellFormed wideCall [0, 0] [0] := by
  constructor <;> first | decide | rfl

theorem blind_wf (a b v : Int) : WellFormed blindCall [a, b] [v] := by
  constructor <;> first | decide | rfl | simp

/-! ## The result in closed form -/

theorem parallelLUT_cam {F : Type} (A : FloatOps F) (c : Call F) (o : Nat) (ho : o < c.total) :
    (c.parallelLUT A)[2 * o]? = some (c.pairAt A o).1 := by
  unfold Call.parallelLUT
  rw [List.getElem?_map, List.getElem?_range (by omega)]
  simp

theorem parallelLUT_pix {F : Type} (A : FloatOps F) (c : Call F) (o : Nat) (ho : o < c.total) :
    (c.parallelLUT A)[2 * o + 1]? = some (c.pairAt A o).2 := by
  unfold Call.parallelLUT
  rw [List.getElem?_map, List.getElem?_range (by omega)]
  have h1 : (2 * o + 1) % 2 = 1 := by omega
  have h2 : (2 * o + 1) / 2 = o := by omega
  simp [h1, h2]

theorem parallelValid_get {F : Type} (A : FloatOps F) (c : Call F) (V0 : List Int) (o : Nat)
    (ho : o < c.total) :
    (c.parallelValid A V0)[o]? = some (c.flagAt A o (V0.getD o 0)) := by
  unfold Call.parallelValid
  rw [List.getElem?_map, List.getElem?_range ho]
  rfl

theorem done_total_eq {F : Type} (A : FloatOps F) (c : Call F) (L0 V0 : List Int)
    (vol0 : List F) (hwf : WellFormed c L0 V0) (s : LoopState F)
    (hs : Done A c L0 V0 vol0 c.total s) :
    s.bufs.LUT = c.parallelLUT A ∧ s.bufs.valid = c.parallelValid A V0 := by
  have hL : s.bufs.LUT.length = 2 * c.total := hs.lut_len.trans hwf.lut_len
  have hV : s.bufs.valid.length = c.total := hs.valid_len.trans hwf.valid_len
  constructor
  · apply List.ext_getElem?
    intro i
    by_cases hi : i < 2 * c.total
    · rcases Nat.mod_two_eq_zero_or_one i with h | h
      · have e : i = 2 * (i / 2) := by omega
        rw [e, hs.cam_done _ (by omega), parallelLUT_cam A c _ (by omega)]
      · have e : i = 2 * (i / 2) + 1 := by omega
        rw [e, hs.pix_done _ (by omega), parallelLUT_pix A c _ (by omega)]
    · rw [List.getElem?_eq_none (by omega), List.getElem?_eq_none]
      simp [Call.parallelLUT]; omega
  · apply List.ext_getElem?
    intro o
    by_cases ho : o < c.total
    · rw [hs.flag_done o ho, parallelValid_get A c V0 o ho]
    · rw [List.getElem?_eq_none (by omega), List.getElem?_eq_none]
      simp [Call.parallelValid]; omega

/-- A well-formed call returns the buffers of the data-parallel formulation and
the `volume` buffer it was given. -/
theorem build_eq_parallel {F : Type} (A : FloatOps F) (c : Call F) (n_channels : Int)
    (L0 V0 : List Int) (vol0 : List F) (hwf : WellFormed c L0 V0) :
    c.build A n_channels L0 V0 vol0 =
      some { LUT := c.parallelLUT A, valid := c.parallelValid A V0, volume := vol0 } := by
  obtain ⟨s, hs, hd⟩ := build_done A c n_channels L0 V0 vol0 hwf
  obtain ⟨h1, h2⟩ := done_total_eq A c L0 V0 vol0 hwf s hd
  rw [hs, ← h1, ← h2, ← hd.volume_eq]

theorem pairAt_flat {F : Type} (A : FloatOps F) (c : Call F) (xi yi zi : Nat)
    (hx : xi < c.nx) (hy : yi < c.ny) : c.pairAt A (c.flat xi yi zi) = c.pairOf A xi yi zi := by
  simp [Call.pairAt, decode_flat c xi yi zi hx hy]

theorem flagAt_flat {F : Type} (A : FloatOps F) (c : Call F) (xi yi zi : Nat) (old : Int)
    (hx : xi < c.nx) (hy : yi < c.ny) :
    c.flagAt A (c.flat xi yi zi) old = c.flagOf A xi yi zi old := by
  simp [Call.flagAt, decode_flat c xi yi zi hx hy]

theorem firstVisible_some_iff {F : Type} (A : FloatOps F) (c : Call F) (xi yi zi m : Nat) :
    c.firstVisible A xi yi zi = some m ↔
      c.passes A xi yi zi m = true ∧ m < c.n_images ∧
        ∀ j, j < m → c.passes A xi yi zi j = false := by
  unfold Call.firstVisible
  simp

theorem firstVisible_none_iff {F : Type} (A : FloatOps F) (c : Call F) (xi yi zi : Nat) :
    c.firstVisible A xi yi zi = none ↔
      ∀ m, m < c.n_images → c.passes A xi yi zi m = false := by
  unfold Call.firstVisible
  simp

theorem passes_iff {F : Type} (A : FloatOps F) (c : Call F) (xi yi zi m : Nat) :
    c.passes A xi yi zi m = true ↔
      0 ≤ c.px A xi yi zi m ∧ c.px A xi yi zi m < c.width ∧
      0 ≤ c.py A xi yi zi m ∧ c.py A xi yi zi m < c.height ∧
      A.lt (A.ofInt 0) (c.ar A xi yi zi m 2) = true := by
  simp only [Call.passes, Bool.and_eq_true, decide_eq_true_eq]
  tauto

theorem passes_false_iff {F : Type} (A : FloatOps F) (c : Call F) (xi yi zi m : Nat) :
    c.passes A xi yi zi m = false ↔
      (c.px A xi yi zi m < 0 ∨ (c.width : Int) ≤ c.px A xi yi zi m ∨
        c.py A xi yi zi m < 0 ∨ (c.height : Int) ≤ c.py A xi yi zi m ∨
        A.lt (A.ofInt 0) (c.ar A xi yi zi m 2) = false) := by
  rw [← Bool.not_eq_true, passes_iff]
  simp only [not_and_or, not_le, not_lt, Bool.not_eq_true]

theorem pixel_eq {F : Type} (A : FloatOps F) (c : Call F) (xi yi zi m : Nat)
    (hp : c.passes A xi yi zi m = true) (hsz : c.width * c.height ≤ 2147483648) :
    c.pixel A xi yi zi m = c.py A xi yi zi m * c.width + c.px A xi yi zi m ∧
      0 ≤ c.pixel A xi yi zi m ∧ c.pixel A xi yi zi m < c.width * c.height := by
  obtain ⟨hx0, hx1, hy0, hy1, _⟩ := (passes_iff A c xi yi zi m).mp hp
  have hsz2 : (c.width : Int) * c.height ≤ 2147483648 := by exact_mod_cast hsz
  have hw : (0 : Int) ≤ c.width := Int.natCast_nonneg _
  have h1 : 0 ≤ c.py A xi yi zi m * c.width := mul_nonneg hy0 hw
  have h2 : (c.py A xi yi zi m + 1) * c.width ≤ c.height * c.width :=
    mul_le_mul_of_nonneg_right (by omega) hw
  have h3 : (c.py A xi yi zi m + 1) * c.width = c.py A xi yi zi m * c.width + c.width := by ring
  have h4 : (c.height : Int) * c.width = c.width * c.height := by ring
  have e : c.pixel A xi yi zi m = c.py A xi yi zi m * c.width + c.px A xi yi zi m := by
    unfold Call.pixel
    rw [wrap32_of_range (c.py A xi yi zi m * c.width) (by omega) (by omega)]
    rw [wrap32_of_range _ (by omega) (by omega)]
  refine ⟨e, ?_, ?_⟩ <;> rw [e] <;> omega

theorem pairOf_cases {F : Type} (A : FloatOps F) (c : Call F) (xi yi zi : Nat) :
    (c.firstVisible A xi yi zi = none ∧ c.pairOf A xi yi zi = (-1, 0)) ∨
    (∃ m : Nat, c.firstVisible A xi yi zi = some m ∧
      c.pairOf A xi yi zi = ((m : Int), c.pixel A xi yi zi m)) := by
  unfold Call.pairOf
  cases c.firstVisible A xi yi zi with
  | none => exact Or.inl ⟨rfl, rfl⟩
  | some m => exact Or.inr ⟨m, rfl, rfl⟩

/-- Slots of a voxel in the result of a well-formed call. -/
theorem build_voxel {F : Type} (A : FloatOps F) (c : Call F) (n_channels : Int)
    (L0 V0 : List Int) (vol0 : List F) (hwf : WellFormed c L0 V0) :
    ∃ r, c.build A n_channels L0 V0 vol0 = some r ∧ r.volume = vol0 ∧
      ∀ xi yi zi, xi < c.nx → yi < c.ny → zi < c.nz →
        r.LUT[2 * c.flat xi yi zi]? = some (c.pairOf A xi yi zi).1 ∧
        r.LUT[2 * c.flat xi yi zi + 1]? = some (c.pairOf A xi yi zi).2 ∧
        r.valid[c.flat xi yi zi]? =
          some (c.flagOf A xi yi zi (V0.getD (c.flat xi yi zi) 0)) := by
  refine ⟨_, build_eq_parallel A c n_channels L0 V0 vol0 hwf, rfl, ?_⟩
  intro xi yi zi hx hy hz
  have hk := flat_lt_total c xi yi zi hx hy hz
  refine ⟨?_, ?_, ?_⟩
  · simp only
    rw [parallelLUT_cam A c _ hk, pairAt_flat A c xi yi zi hx hy]
  · simp only
    rw [parallelLUT_pix A c _ hk, pairAt_flat A c xi yi zi hx hy]
  · simp only
    rw [parallelValid_get A c V0 _ hk, flagAt_flat A c xi yi zi _ hx hy]

/-- Slots of an offset in the result of a well-formed call, with the two cases
of the camera scan of the voxel `decode o`. -/
theorem build_slot {F : Type} (A : FloatOps F) (c : Call F) (n_channels : Int)
    (L0 V0 : List Int) (vol0 : List F) (hwf : WellFormed c L0 V0) :
    ∃ r, c.build A n_channels L0 V0 vol0 = some r ∧ r.volume = vol0 ∧
      ∀ o, o < c.total →
        (r.LUT[2 * o]? = some (-1) ∧ r.LUT[2 * o + 1]? = some 0 ∧ r.valid[o]? = V0[o]? ∧
          ∀ m, m < c.n_images →
            c.passes A (c.decode o).1 (c.decode o).2.1 (c.decode o).2.2 m = false) ∨
        (∃ m : Nat, m < c.n_images ∧
          c.passes A (c.decode o).1 (c.decode o).2.1 (c.decode o).2.2 m = true ∧
          r.LUT[2 * o]? = some (m : Int) ∧
          r.LUT[2 * o + 1]? =
            some (c.pixel A (c.decode o).1 (c.decode o).2.1 (c.decode o).2.2 m) ∧
          r.valid[o]? = some 1) := by
  refine ⟨_, build_eq_parallel A c n_channels L0 V0 vol0 hwf, rfl, ?_⟩
  intro o ho
  simp only
  rw [parallelLUT_cam A c o ho, parallelLUT_pix A c o ho, parallelValid_get A c V0 o ho]
  have hV : o < V0.length := by rw [hwf.valid_len]; exact ho
  unfold Call.pairAt Call.flagAt Call.flagOf
  rcases pairOf_cases A c (c.decode o).1 (c.decode o).2.1 (c.decode o).2.2 with
    ⟨hnone, hp⟩ | ⟨m, hm, hp⟩
  · left
    rw [hp, hnone]
    refine ⟨rfl, rfl, ?_, (firstVisible_none_iff A c _ _ _).mp hnone⟩
    simp [List.getD, List.getElem?_eq_getElem hV]
  · right
    obtain ⟨hpm, hlt, _⟩ := (firstVisible_some_iff A c _ _ _ m).mp hm
    rw [hp, hm]
    exact ⟨m, hlt, hpm, rfl, rfl, rfl⟩

/-! ## Independence of `n_channels` and `volume` -/

theorem cameraLoop_withVolume {F : Type} (A : FloatOps F) (p : Params F) (xi yi zi : Int)
    (off : Nat) (v : List F) (cams : List Nat) (b : Buffers F) :
    cameraLoop A p xi yi zi off cams (b.withVolume v) =
      (cameraLoop A p xi yi zi off cams b).map (Buffers.withVolume v) := by
  induction cams with
  | nil => simp [cameraLoop]
  | cons img rest ih =>
    rw [cameraLoop, cameraLoop]
    cases projectRow A p.P img 0 (worldCoord A xi p.n_x p.size_x p.origin_x)
        (worldCoord A yi p.n_y p.size_y p.origin_y)
        (worldCoord A zi p.n_z p.size_z p.origin_z) with
    | none => rfl
    | some ar0 =>
      cases projectRow A p.P img 1 (worldCoord A xi p.n_x p.size_x p.origin_x)
          (worldCoord A yi p.n_y p.size_y p.origin_y)
          (worldCoord A zi p.n_z p.size_z p.origin_z) with
      | none => rfl
      | some ar1 =>
        cases projectRow A p.P img 2 (worldCoord A xi p.n_x p.size_x p.origin_x)
            (worldCoord A yi p.n_y p.size_y p.origin_y)
            (worldCoord A zi p.n_z p.size_z p.origin_z) with
        | none => rfl
        | some ar2 =>
          simp only [Option.bind_eq_bind, Option.some_bind, Option.pure_def]
          split
          · simp only [Buffers.withVolume]
            cases writeAt b.LUT (wrap64 (off * 2)) (img : Int) with
            | none => rfl
            | some l1 =>
              simp only [Option.some_bind]
              cases writeAt l1 (wrap64 (off * 2) + 1)
                  (wrap32 (wrap32 (A.round (A.div ar1 ar2) * p.width) +
                    A.round (A.div ar0 ar2))) with
              | none => rfl
              | some l2 =>
                simp only [Option.some_bind]
                cases writeAt b.valid off 1 with
                | none => rfl
                | some v1 => rfl
          · exact ih

theorem voxelBody_withVolume {F : Type} (A : FloatOps F) (p : Params F) (zi yi xi : Nat)
    (v : List F) (s : LoopState F) :
    voxelBody A p zi yi xi (s.withVolume v) =
      (voxelBody A p zi yi xi s).map (LoopState.withVolume v) := by
  unfold voxelBody
  simp only [LoopState.withVolume, Buffers.withVolume, Option.bind_eq_bind, Option.pure_def]
  cases writeAt s.bufs.LUT (wrap64 (s.offset * 2)) (-1) with
  | none => rfl
  | some l1 =>
    simp only [Option.some_bind]
    cases writeAt l1 (wrap64 (s.offset * 2) + 1) 0 with
    | none => rfl
    | some l2 =>
      simp only [Option.some_bind]
      have h := cameraLoop_withVolume A p xi yi zi s.offset v (List.range p.n_images.toNat)
        { LUT := l2, valid := s.bufs.valid, volume := s.bufs.volume }
      simp only [Buffers.withVolume] at h
      rw [h]
      cases cameraLoop A p xi yi zi s.offset (List.range p.n_images.toNat)
          { LUT := l2, valid := s.bufs.valid, volume := s.bufs.volume } with
      | none => rfl
      | some b => rfl

theorem forRange_map {σ : Type} (W : σ → σ) (n : Int) (body : Nat → σ → Option σ)
    (hbody : ∀ k s, body k (W s) = (body k s).map W) (s : σ) :
    forRange n body (W s) = (forRange n body s).map W := by
  unfold forRange
  generalize List.range n.toNat = l
  induction l generalizing s with
  | nil => simp
  | cons k t ih =>
    simp only [List.foldlM_cons, hbody]
    cases body k s with
    | none => rfl
    | some s1 => simpa using ih s1

/-- The builder never reads `n_channels` or `volume`: changing them changes
nothing but the `volume` component of the result, which is the buffer given. -/
theorem build_withVolume {F : Type} (A : FloatOps F) (n_voxels : List Int)
    (voxel_size origin projection : Tensor F) (n_images height width nc1 nc2 : Int)
    (LUT valid : List Int) (vol1 vol2 : List F) :
    build_LUT_CPU A n_voxels voxel_size origin projection n_images height width nc1
        LUT valid vol1 =
      (build_LUT_CPU A n_voxels voxel_size origin projection n_images height width nc2
        LUT valid vol2).map (Buffers.withVolume vol1) := by
  unfold build_LUT_CPU
  simp only [Option.bind_eq_bind, Option.pure_def]
  cases n_voxels[0]? with
  | none => rfl
  | some n_x =>
  cases n_voxels[1]? with
  | none => rfl
  | some n_y =>
  cases n_voxels[2]? with
  | none => rfl
  | some n_z =>
  cases voxel_size.get_data[0]? with
  | none => rfl
  | some sx =>
  cases voxel_size.get_data[1]? with
  | none => rfl
  | some sy =>
  cases voxel_size.get_data[2]? with
  | none => rfl
  | some sz =>
  cases origin.get_data[0]? with
  | none => rfl
  | some ox =>
  cases origin.get_data[1]? with
  | none => rfl
  | some oy =>
  cases origin.get_data[2]? with
  | none => rfl
  | some oz =>
  simp only [Option.some_bind]
  have h := forRange_map (LoopState.withVolume vol1) n_z (fun zi s =>
      forRange n_y (fun yi s =>
        forRange n_x (fun xi s => voxelBody A
          { n_x := n_x, n_y := n_y, n_z := n_z, size_x := sx, size_y := sy, size_z := sz,
            origin_x := ox, origin_y := oy, origin_z := oz, P := projection.get_data,
            n_images := n_images, height := height, width := width } zi yi xi s) s) s)
    (fun zi s => forRange_map _ n_y _
      (fun yi s => forRange_map _ n_x _
        (fun xi s => voxelBody_withVolume A _ zi yi xi vol1 s) s) s)
    { bufs := { LUT := LUT, valid := valid, volume := vol2 }, offset := 0 }
  simp only [LoopState.withVolume, Buffers.withVolume] at h
  rw [h]
  generalize forRange n_z _
    ({ bufs := { LUT := LUT, valid := valid, volume := vol2 }, offset := 0 } : LoopState F) = res
  cases res with
  | none => rfl
  | some s => rfl

/-! ## Claims -/

/-- C1, as stated, fails: on `wideCall` (a `65536 x 65536` image, the voxel
projected to `x = y = 65535`) the call is well formed and records camera `0`,
but the pixel entry is `-1`, not `y * width + x = 4294967295`, which no
`int32_t` element can hold. -/
theorem C1_counterexample :
    WellFormed wideCall [0, 0] [0] ∧
    wideCall.build exactOps 1 [0, 0] [0] [] = some { LUT := [0, -1], valid := [1], volume := [] } ∧
    wideCall.px exactOps 0 0 0 0 = 65535 ∧ wideCall.py exactOps 0 0 0 0 = 65535 ∧
    ([0, -1] : List Int)[2 * wideCall.flat 0 0 0 + 1]? ≠
      some (wideCall.py exactOps 0 0 0 0 * wideCall.width + wideCall.px exactOps 0 0 0 0) :=
  ⟨wide_wf, by decide!, by decide!, by decide!, by decide!⟩

/-- C1 (amended): soundness of a recorded entry.  For a well-formed call and a
voxel `(xi, yi, zi)` with flat offset `o`, if the final `LUT[2*o]` is a value
`cam` other than `-1`, then `0 <= cam < n_images`, the rounded coordinates
`x`, `y` of the voxel in camera `cam` satisfy `0 <= x < width`,
`0 <= y < height`, the depth `ar_2` is positive, and, provided
`width * height <= 2^31`, the final `LUT[2*o+1]` equals `y * width + x`. -/
theorem C1_recorded_entry_sound {F : Type} (A : FloatOps F) (c : Call F) (n_channels : Int)
    (L0 V0 : List Int) (vol0 : List F) (hwf : WellFormed c L0 V0) :
    ∃ r, c.build A n_channels L0 V0 vol0 = some r ∧
      ∀ xi yi zi, xi < c.nx → yi < c.ny → zi < c.nz →
        ∀ cam : Int, r.LUT[2 * c.flat xi yi zi]? = some cam → cam ≠ -1 →
          0 ≤ cam ∧ cam < c.n_images ∧
          0 ≤ c.px A xi yi zi cam.toNat ∧ c.px A xi yi zi cam.toNat < c.width ∧
          0 ≤ c.py A xi yi zi cam.toNat ∧ c.py A xi yi zi cam.toNat < c.height ∧
          A.lt (A.ofInt 0) (c.ar A xi yi zi cam.toNat 2) = true ∧
          (c.width * c.height ≤ 2147483648 →
            r.LUT[2 * c.flat xi yi zi + 1]? =
              some (c.py A xi yi zi cam.toNat * c.width + c.px A xi yi zi cam.toNat)) := by
  obtain ⟨r, hr, _, hslots⟩ := build_voxel A c n_channels L0 V0 vol0 hwf
  refine ⟨r, hr, ?_⟩
  intro xi yi zi hx hy hz cam hcam hne
  obtain ⟨h1, h2, _⟩ := hslots xi yi zi hx hy hz
  rw [h1] at hcam
  rcases pairOf_cases A c xi yi zi with ⟨_, hp⟩ | ⟨m, hm, hp⟩
  · rw [hp] at hcam
    simp only [Option.some.injEq] at hcam
    exact absurd hcam.symm hne
  · rw [hp] at hcam h2
    simp only [Option.some.injEq] at hcam
    subst hcam
    obtain ⟨hpass, hlt, _⟩ := (firstVisible_some_iff A c xi yi zi m).mp hm
    obtain ⟨a1, a2, a3, a4, a5⟩ := (passes_iff A c xi yi zi m).mp hpass
    simp only [Int.toNat_ofNat]
    refine ⟨Int.natCast_nonneg _, by exact_mod_cast hlt, a1, a2, a3, a4, a5, ?_⟩
    intro hsz
    rw [h2, (pixel_eq A c xi yi zi m hpass hsz).1]

/-- Instance of C1 on the call of the repository test, at the voxel `(1, 1, 1)`
of slot `7`. -/
theorem C1_recorded_entry_sound_witness :
    WellFormed demoCall demoLUT demoValid ∧
    ∃ r, demoCall.build exactOps 1 demoLUT demoValid [] = some r ∧
      ∀ cam : Int, r.LUT[2 * demoCall.flat 1 1 1]? = some cam → cam ≠ -1 →
        0 ≤ cam ∧ cam < demoCall.n_images ∧
        0 ≤ demoCall.px exactOps 1 1 1 cam.toNat ∧
        demoCall.px exactOps 1 1 1 cam.toNat < demoCall.width ∧
        0 ≤ demoCall.py exactOps 1 1 1 cam.toNat ∧
        demoCall.py exactOps 1 1 1 cam.toNat < demoCall.height ∧
        exactOps.lt (exactOps.ofInt 0) (demoCall.ar exactOps 1 1 1 cam.toNat 2) = true ∧
        (demoCall.width * demoCall.height ≤ 2147483648 →
          r.LUT[2 * demoCall.flat 1 1 1 + 1]? =
            some (demoCall.py exactOps 1 1 1 cam.toNat * demoCall.width +
              demoCall.px exactOps 1 1 1 cam.toNat)) :=
  ⟨demo_wf,
    (C1_recorded_entry_sound exactOps demoCall 1 demoLUT demoValid [] demo_wf).imp
      (fun _ h => ⟨h.1, h.2 1 1 1 (by decide) (by decide) (by decide)⟩)⟩

/-- C2: first-match priority.  For a well-formed call and a voxel for which at
least one camera passes the visibility test, the final `LUT[2*o]` is the
smallest index `m` among the passing cameras, whatever the depths, and the
final `LUT[2*o+1]` is the pixel value computed from camera `m`. -/
theorem C2_first_match_priority {F : Type} (A : FloatOps F) (c : Call F) (n_channels : Int)
    (L0 V0 : List Int) (vol0 : List F) (hwf : WellFormed c L0 V0) :
    ∃ r, c.build A n_channels L0 V0 vol0 = some r ∧
      ∀ xi yi zi, xi < c.nx → yi < c.ny → zi < c.nz →
        (∃ cam, cam < c.n_images ∧ c.passes A xi yi zi cam = true) →
        ∃ m : Nat, m < c.n_images ∧ c.passes A xi yi zi m = true ∧
          (∀ cam, cam < c.n_images → c.passes A xi yi zi cam = true → m ≤ cam) ∧
          r.LUT[2 * c.flat xi yi zi]? = some (m : Int) ∧
          r.LUT[2 * c.flat xi yi zi + 1]? = some (c.pixel A xi yi zi m) := by
  obtain ⟨r, hr, _, hslots⟩ := build_voxel A c n_channels L0 V0 vol0 hwf
  refine ⟨r, hr, ?_⟩
  intro xi yi zi hx hy hz ⟨cam, hcam, hpass⟩
  obtain ⟨h1, h2, _⟩ := hslots xi yi zi hx hy hz
  rcases pairOf_cases A c xi yi zi with ⟨hnone, _⟩ | ⟨m, hm, hp⟩
  · have := (firstVisible_none_iff A c xi yi zi).mp hnone cam hcam
    rw [this] at hpass
    exact absurd hpass (by decide)
  · obtain ⟨hpm, hlt, hmin⟩ := (firstVisible_some_iff A c xi yi zi m).mp hm
    refine ⟨m, hlt, hpm, ?_, ?_, ?_⟩
    · intro cam2 _ hp2
      by_contra hc
      have := hmin cam2 (by omega)
      rw [this] at hp2
      exact absurd hp2 (by decide)
    · rw [h1, hp]
    · rw [h2, hp]

/-- Instance of C2 on `twoCamCall` at the voxel `(1, 1, 1)`, which both cameras
observe: camera `0` at depth `2` and camera `1` at the smaller depth `1`.  The
recorded camera is `0`, and the pixel is the one of camera `0`. -/
theorem C2_first_match_priority_witness :
    WellFormed twoCamCall demoLUT demoValid ∧
    twoCamCall.passes exactOps 1 1 1 0 = true ∧
    twoCamCall.passes exactOps 1 1 1 1 = true ∧
    twoCamCall.ar exactOps 1 1 1 0 2 = 2 ∧
    twoCamCall.ar exactOps 1 1 1 1 2 = 1 ∧
    ∃ r, twoCamCall.build exactOps 1 demoLUT demoValid [] = some r ∧
      r.LUT[2 * twoCamCall.flat 1 1 1]? = some 0 ∧
      r.LUT[2 * twoCamCall.flat 1 1 1 + 1]? = some (twoCamCall.pixel exactOps 1 1 1 0) := by
  have hp0 : twoCamCall.passes exactOps 1 1 1 0 = true := by decide!
  have hp1 : twoCamCall.passes exactOps 1 1 1 1 = true := by decide!
  refine ⟨twoCam_wf, hp0, hp1, by decide!, by decide!, ?_⟩
  obtain ⟨r, hr, h⟩ :=
    C2_first_match_priority exactOps twoCamCall 1 demoLUT demoValid [] twoCam_wf
  obtain ⟨m, _, _, hmin, hcam, hpix⟩ :=
    h 1 1 1 (by decide) (by decide) (by decide) ⟨1, by decide, hp1⟩
  have hm : m = 0 := Nat.le_zero.mp (hmin 0 (by decide) hp0)
  subst hm
  exact ⟨r, hr, hcam, hpix⟩

/-- C3: no-visibility case.  For a well-formed call and a voxel with flat offset
`o`, the final `LUT[2*o]` equals `-1` if and only if no camera in
`0 .. n_images-1` passes the visibility test for the voxel (each camera either
projects it outside `[0,width) x [0,height)` or gives a depth that is not
positive), and in that case the final `LUT[2*o+1]` equals `0`. -/
theorem C3_no_visibility {F : Type} (A : FloatOps F) (c : Call F) (n_channels : Int)
    (L0 V0 : List Int) (vol0 : List F) (hwf : WellFormed c L0 V0) :
    ∃ r, c.build A n_channels L0 V0 vol0 = some r ∧
      ∀ xi yi zi, xi < c.nx → yi < c.ny → zi < c.nz →
        ∃ v : Int, r.LUT[2 * c.flat xi yi zi]? = some v ∧
          (v = -1 ↔ ∀ cam, cam < c.n_images →
            (c.px A xi yi zi cam < 0 ∨ (c.width : Int) ≤ c.px A xi yi zi cam ∨
              c.py A xi yi zi cam < 0 ∨ (c.height : Int) ≤ c.py A xi yi zi cam ∨
              A.lt (A.ofInt 0) (c.ar A xi yi zi cam 2) = false)) ∧
          (v = -1 → r.LUT[2 * c.flat xi yi zi + 1]? = some 0) := by
  obtain ⟨r, hr, _, hslots⟩ := build_voxel A c n_channels L0 V0 vol0 hwf
  refine ⟨r, hr, ?_⟩
  intro xi yi zi hx hy hz
  obtain ⟨h1, h2, _⟩ := hslots xi yi zi hx hy hz
  simp only [← passes_false_iff]
  refine ⟨_, h1, ?_, ?_⟩
  · rcases pairOf_cases A c xi yi zi with ⟨hnone, hp⟩ | ⟨m, hm, hp⟩
    · rw [hp]
      simpa using (firstVisible_none_iff A c xi yi zi).mp hnone
    · rw [hp]
      obtain ⟨hpm, hlt, _⟩ := (firstVisible_some_iff A c xi yi zi m).mp hm
      constructor
      · intro h
        simp only at h
        omega
      · intro h
        rw [h m hlt] at hpm
        exact absurd hpm (by decide)
  · intro hv
    rcases pairOf_cases A c xi yi zi with ⟨_, hp⟩ | ⟨m, _, hp⟩
    · rw [h2, hp]
    · rw [hp] at hv
      simp only at hv
      omega

/-- Instance of C3 on the call of the repository test, at the voxel `(0, 0, 0)`,
whose depth is `0`. -/
theorem C3_no_visibility_witness :
    WellFormed demoCall demoLUT demoValid ∧
    ∃ r, demoCall.build exactOps 1 demoLUT demoValid [] = some r ∧
      ∃ v : Int, r.LUT[2 * demoCall.flat 0 0 0]? = some v ∧
        (v = -1 ↔ ∀ cam, cam < demoCall.n_images →
          (demoCall.px exactOps 0 0 0 cam < 0 ∨
            (demoCall.width : Int) ≤ demoCall.px exactOps 0 0 0 cam ∨
            demoCall.py exactOps 0 0 0 cam < 0 ∨
            (demoCall.height : Int) ≤ demoCall.py exactOps 0 0 0 cam ∨
            exactOps.lt (exactOps.ofInt 0) (demoCall.ar exactOps 0 0 0 cam 2) = false)) ∧
        (v = -1 → r.LUT[2 * demoCall.flat 0 0 0 + 1]? = some 0) :=
  ⟨demo_wf,
    (C3_no_visibility exactOps demoCall 1 demoLUT demoValid [] demo_wf).imp
      (fun _ h => ⟨h.1, h.2 0 0 0 (by decide) (by decide) (by decide)⟩)⟩

/-- C4, as stated, fails: on `blindCall` with `valid` holding `1` before the
call, no camera observes the voxel, so the final `LUT[0]` is `-1` while the
final `valid[0]` is still `1`. -/
theorem C4_counterexample :
    WellFormed blindCall [0, 0] [1] ∧
    blindCall.build exactOps 1 [0, 0] [1] [] =
      some { LUT := [-1, 0], valid := [1], volume := [] } ∧
    ¬ (([1] : List Int)[0]? = some 1 ↔ ([-1, 0] : List Int)[2 * 0]? ≠ some (-1)) :=
  ⟨blind_wf 0 0 1, by decide!, by decide⟩

/-- C4 (amended): after a well-formed call, for every voxel offset `o`, a
camera entry `LUT[2*o]` other than `-1` implies `valid[o] == 1`; and when the
caller had not stored `1` at `valid[o]` before the call (for instance after
pre-zeroing), `valid[o] == 1` if and only if `LUT[2*o] != -1`. -/
theorem C4_flag_matches_camera {F : Type} (A : FloatOps F) (c : Call F) (n_channels : Int)
    (L0 V0 : List Int) (vol0 : List F) (hwf : WellFormed c L0 V0) :
    ∃ r, c.build A n_channels L0 V0 vol0 = some r ∧
      ∀ o, o < c.total →
        ∃ cam flag : Int, r.LUT[2 * o]? = some cam ∧ r.valid[o]? = some flag ∧
          (cam ≠ -1 → flag = 1) ∧
          (V0[o]? ≠ some 1 → (flag = 1 ↔ cam ≠ -1)) := by
  obtain ⟨r, hr, _, hslot⟩ := build_slot A c n_channels L0 V0 vol0 hwf
  refine ⟨r, hr, ?_⟩
  intro o ho
  have hV : o < V0.length := by rw [hwf.valid_len]; exact ho
  rcases hslot o ho with ⟨h1, _, h3, _⟩ | ⟨m, _, _, h1, _, h3⟩
  · refine ⟨-1, V0[o], h1, ?_, ?_, ?_⟩
    · rw [h3, List.getElem?_eq_getElem hV]
    · intro h; exact absurd rfl h
    · intro h
      rw [List.getElem?_eq_getElem hV] at h
      constructor
      · intro h2; rw [h2] at h; exact absurd rfl h
      · intro h2; exact absurd rfl h2
  · refine ⟨m, 1, h1, h3, fun _ => rfl, fun _ => ⟨fun _ => by omega, fun _ => rfl⟩⟩

/-- Instance of C4 on the call of the repository test. -/
theorem C4_flag_matches_camera_witness :
    WellFormed demoCall demoLUT demoValid ∧
    ∃ r, demoCall.build exactOps 1 demoLUT demoValid [] = some r ∧
      ∀ o, o < demoCall.total →
        ∃ cam flag : Int, r.LUT[2 * o]? = some cam ∧ r.valid[o]? = some flag ∧
          (cam ≠ -1 → flag = 1) ∧
          (demoValid[o]? ≠ some 1 → (flag = 1 ↔ cam ≠ -1)) :=
  ⟨demo_wf, C4_flag_matches_camera exactOps demoCall 1 demoLUT demoValid [] demo_wf⟩

/-- C5, as stated, fails: on `blindCall` two calls that differ only in the
initial content of `valid` (`0` against `1`) end with different contents of
`valid`. -/
theorem C5_counterexample :
    WellFormed blindCall [0, 0] [0] ∧ WellFormed blindCall [0, 0] [1] ∧
    (blindCall.build exactOps 1 [0, 0] [0] []).map (fun r => r.valid) = some [0] ∧
    (blindCall.build exactOps 1 [0, 0] [1] []).map (fun r => r.valid) = some [1] ∧
    ([0] : List Int) ≠ [1] :=
  ⟨blind_wf 0 0 0, blind_wf 0 0 1, by decide!, by decide!, by decide⟩

/-- C5 (amended): for a well-formed call and any two choices of the contents of
`LUT` and `valid` before the call, the final contents of `LUT[0 .. 2*total)`
are the same (the builder writes every element of `LUT`); of `valid` the
builder writes only the flags of observed voxels (`LUT[2*o] != -1`), which end
as `1` for both choices, and the flag of every other voxel keeps the value each
caller had stored. -/
theorem C5_lut_overwritten {F : Type} (A : FloatOps F) (c : Call F) (n_channels : Int)
    (L0 V0 L1 V1 : List Int) (vol0 : List F)
    (hwf0 : WellFormed c L0 V0) (hwf1 : WellFormed c L1 V1) :
    ∃ r0 r1, c.build A n_channels L0 V0 vol0 = some r0 ∧
      c.build A n_channels L1 V1 vol0 = some r1 ∧
      r0.LUT = r1.LUT ∧ r0.LUT.length = 2 * c.total ∧
      ∀ o, o < c.total →
        (r0.LUT[2 * o]? ≠ some (-1) → r0.valid[o]? = some 1 ∧ r1.valid[o]? = some 1) ∧
        (r0.LUT[2 * o]? = some (-1) → r0.valid[o]? = V0[o]? ∧ r1.valid[o]? = V1[o]?) := by
  obtain ⟨r0, hr0, _, hslot0⟩ := build_slot A c n_channels L0 V0 vol0 hwf0
  obtain ⟨r1, hr1, _, hslot1⟩ := build_slot A c n_channels L1 V1 vol0 hwf1
  have e0 := build_eq_parallel A c n_channels L0 V0 vol0 hwf0
  have e1 := build_eq_parallel A c n_channels L1 V1 vol0 hwf1
  have hL0 : r0.LUT = c.parallelLUT A := by
    rw [hr0] at e0; simp only [Option.some.injEq] at e0; rw [e0]
  have hL1 : r1.LUT = c.parallelLUT A := by
    rw [hr1] at e1; simp only [Option.some.injEq] at e1; rw [e1]
  refine ⟨r0, r1, hr0, hr1, by rw [hL0, hL1], by simp [hL0, Call.parallelLUT], ?_⟩
  intro o ho
  rcases hslot0 o ho with ⟨a1, _, a3, a4⟩ | ⟨m, hm, hp, a1, _, a3⟩
  · rcases hslot1 o ho with ⟨_, _, b3, _⟩ | ⟨m, hm, hp, _, _, _⟩
    · exact ⟨fun h => absurd a1 h, fun _ => ⟨a3, b3⟩⟩
    · rw [a4 m hm] at hp
      exact absurd hp (by decide)
  · rcases hslot1 o ho with ⟨_, _, _, b4⟩ | ⟨_, _, _, _, _, b3⟩
    · rw [b4 m hm] at hp
      exact absurd hp (by decide)
    · refine ⟨fun _ => ⟨a3, b3⟩, fun h => ?_⟩
      rw [a1] at h
      simp only [Option.some.injEq] at h
      omega

/-- Instance of C5 on the call of the repository test, with the buffers of the
test against buffers filled with `7`. -/
theorem C5_lut_overwritten_witness :
    WellFormed demoCall demoLUT demoValid ∧
    WellFormed demoCall (List.replicate 16 7) (List.replicate 8 7) ∧
    ∃ r0 r1, demoCall.build exactOps 1 demoLUT demoValid [] = some r0 ∧
      demoCall.build exactOps 1 (List.replicate 16 7) (List.replicate 8 7) [] = some r1 ∧
      r0.LUT = r1.LUT ∧ r0.LUT.length = 2 * demoCall.total ∧
      ∀ o, o < demoCall.total →
        (r0.LUT[2 * o]? ≠ some (-1) → r0.valid[o]? = some 1 ∧ r1.valid[o]? = some 1) ∧
        (r0.LUT[2 * o]? = some (-1) →
          r0.valid[o]? = demoValid[o]? ∧ r1.valid[o]? = (List.replicate 8 (7 : Int))[o]?) :=
  ⟨demo_wf, by constructor <;> first | decide | rfl,
    C5_lut_overwritten exactOps demoCall 1 demoLUT demoValid (List.replicate 16 7)
      (List.replicate 8 7) [] demo_wf (by constructor <;> first | decide | rfl)⟩

/-- C6: exact content of `valid`.  For a well-formed call and every voxel with
flat offset `o`: if some camera passes the visibility test, the final
`valid[o]` is `1`; if none does, the final `valid[o]` is the value the caller
stored there.  Consequently, when the caller pre-zeros `valid`, every final
flag is `0` or `1`, and it is `1` exactly for the voxels some camera observes. -/
theorem C6_valid_content {F : Type} (A : FloatOps F) (c : Call F) (n_channels : Int)
    (L0 V0 : List Int) (vol0 : List F) (hwf : WellFormed c L0 V0) :
    ∃ r, c.build A n_channels L0 V0 vol0 = some r ∧
      (∀ xi yi zi, xi < c.nx → yi < c.ny → zi < c.nz →
        ((∃ cam, cam < c.n_images ∧ c.passes A xi yi zi cam = true) →
          r.valid[c.flat xi yi zi]? = some 1) ∧
        ((∀ cam, cam < c.n_images → c.passes A xi yi zi cam = false) →
          r.valid[c.flat xi yi zi]? = V0[c.flat xi yi zi]?)) ∧
      ((∀ o, o < c.total → V0[o]? = some 0) →
        ∀ xi yi zi, xi < c.nx → yi < c.ny → zi < c.nz →
          (r.valid[c.flat xi yi zi]? = some 0 ∨ r.valid[c.flat xi yi zi]? = some 1) ∧
          (r.valid[c.flat xi yi zi]? = some 1 ↔
            ∃ cam, cam < c.n_images ∧ c.passes A xi yi zi cam = true)) := by
  obtain ⟨r, hr, _, hslots⟩ := build_voxel A c n_channels L0 V0 vol0 hwf
  have key : ∀ xi yi zi, xi < c.nx → yi < c.ny → zi < c.nz →
      ((∃ cam, cam < c.n_images ∧ c.passes A xi yi zi cam = true) ∧
        r.valid[c.flat xi yi zi]? = some 1) ∨
      ((∀ cam, cam < c.n_images → c.passes A xi yi zi cam = false) ∧
        r.valid[c.flat xi yi zi]? = V0[c.flat xi yi zi]?) := by
    intro xi yi zi hx hy hz
    obtain ⟨_, _, h3⟩ := hslots xi yi zi hx hy hz
    have hV : c.flat xi yi zi < V0.length := by
      rw [hwf.valid_len]; exact flat_lt_total c xi yi zi hx hy hz
    unfold Call.flagOf at h3
    rcases pairOf_cases A c xi yi zi with ⟨hnone, _⟩ | ⟨m, hm, _⟩
    · right
      rw [hnone] at h3
      refine ⟨(firstVisible_none_iff A c xi yi zi).mp hnone, ?_⟩
      rw [h3]
      simp [List.getD, List.getElem?_eq_getElem hV]
    · left
      rw [hm] at h3
      obtain ⟨hpm, hlt, _⟩ := (firstVisible_some_iff A c xi yi zi m).mp hm
      exact ⟨⟨m, hlt, hpm⟩, h3⟩
  have excl : ∀ xi yi zi, (∃ cam, cam < c.n_images ∧ c.passes A xi yi zi cam = true) →
      (∀ cam, cam < c.n_images → c.passes A xi yi zi cam = false) → False := by
    intro xi yi zi ⟨cam, hcam, hp⟩ hall
    rw [hall cam hcam] at hp
    exact absurd hp (by decide)
  refine ⟨r, hr, ?_, ?_⟩
  · intro xi yi zi hx hy hz
    rcases key xi yi zi hx hy hz with ⟨hex, hv⟩ | ⟨hall, hv⟩
    · exact ⟨fun _ => hv, fun hall => (excl xi yi zi hex hall).elim⟩
    · exact ⟨fun hex => (excl xi yi zi hex hall).elim, fun _ => hv⟩
  · intro hzero xi yi zi hx hy hz
    have h0 := hzero _ (flat_lt_total c xi yi zi hx hy hz)
    rcases key xi yi zi hx hy hz with ⟨hex, hv⟩ | ⟨hall, hv⟩
    · exact ⟨Or.inr hv, fun _ => hex, fun _ => hv⟩
    · rw [h0] at hv
      refine ⟨Or.inl hv, fun h => ?_, fun hex => (excl xi yi zi hex hall).elim⟩
      rw [hv] at h
      exact absurd h (by decide)

/-- Instance of C6 on the call of the repository test, whose `valid` buffer is
pre-zeroed. -/
theorem C6_valid_content_witness :
    WellFormed demoCall demoLUT demoValid ∧
    (∀ o, o < demoCall.total → demoValid[o]? = some 0) ∧
    ∃ r, demoCall.build exactOps 1 demoLUT demoValid [] = some r ∧
      ∀ xi yi zi, xi < demoCall.nx → yi < demoCall.ny → zi < demoCall.nz →
        (r.valid[demoCall.flat xi yi zi]? = some 0 ∨
          r.valid[demoCall.flat xi yi zi]? = some 1) ∧
        (r.valid[demoCall.flat xi yi zi]? = some 1 ↔
          ∃ cam, cam < demoCall.n_images ∧ demoCall.passes exactOps xi yi zi cam = true) :=
  ⟨demo_wf, by decide,
    (C6_valid_content exactOps demoCall 1 demoLUT demoValid [] demo_wf).imp
      (fun _ h => ⟨h.1, h.2.2 (by decide)⟩)⟩

/-- C7: bounds respect.  For a well-formed call with `width * height < 2^31` and
every voxel offset `o` whose final `valid[o]` is `1` (a flag the caller had
already set to `1` included), the final pixel entry satisfies
`0 <= LUT[2*o+1] < width * height`. -/
theorem C7_pixel_in_bounds {F : Type} (A : FloatOps F) (c : Call F) (n_channels : Int)
    (L0 V0 : List Int) (vol0 : List F) (hwf : WellFormed c L0 V0)
    (hsz : c.width * c.height < 2147483648) :
    ∃ r, c.build A n_channels L0 V0 vol0 = some r ∧
      ∀ o, o < c.total → r.valid[o]? = some 1 →
        ∃ pix : Int, r.LUT[2 * o + 1]? = some pix ∧ 0 ≤ pix ∧
          pix < (c.width : Int) * (c.height : Int) := by
  obtain ⟨r, hr, _, hslot⟩ := build_slot A c n_channels L0 V0 vol0 hwf
  refine ⟨r, hr, ?_⟩
  intro o ho _
  rcases hslot o ho with ⟨_, h2, _, _⟩ | ⟨m, _, hp, _, h2, _⟩
  · refine ⟨0, h2, le_refl _, ?_⟩
    have hw : (0 : Int) < c.width := by exact_mod_cast hwf.width_pos
    have hh : (0 : Int) < c.height := by exact_mod_cast hwf.height_pos
    exact mul_pos hw hh
  · obtain ⟨_, h0, h1⟩ := pixel_eq A c _ _ _ m hp (by omega)
    exact ⟨_, h2, h0, h1⟩

/-- Instance of C7 on the call of the repository test. -/
theorem C7_pixel_in_bounds_witness :
    WellFormed demoCall demoLUT demoValid ∧
    demoCall.width * demoCall.height < 2147483648 ∧
    ∃ r, demoCall.build exactOps 1 demoLUT demoValid [] = some r ∧
      ∀ o, o < demoCall.total → r.valid[o]? = some 1 →
        ∃ pix : Int, r.LUT[2 * o + 1]? = some pix ∧ 0 ≤ pix ∧
          pix < (demoCall.width : Int) * (demoCall.height : Int) :=
  ⟨demo_wf, by decide,
    C7_pixel_in_bounds exactOps demoCall 1 demoLUT demoValid [] demo_wf (by decide)⟩

/-- C8, as stated, fails for the flag: on `blindCall` the voxel `(0, 0, 0)` and
the read-only inputs are the same in two calls, yet the final `valid[0]` is `0`
when the caller stored `0` and `1` when the caller stored `1`, so the flag is
not computed from the voxel's indices and the read-only inputs alone. -/
theorem C8_counterexample :
    WellFormed blindCall [0, 0] [0] ∧ WellFormed blindCall [0, 0] [1] ∧
    blindCall.flat 0 0 0 = 0 ∧
    blindCall.build exactOps 1 [0, 0] [0] [] =
      some { LUT := [-1, 0], valid := [0], volume := [] } ∧
    blindCall.build exactOps 1 [0, 0] [1] [] =
      some { LUT := [-1, 0], valid := [1], volume := [] } ∧
    ([0] : List Int)[blindCall.flat 0 0 0]? ≠ ([1] : List Int)[blindCall.flat 0 0 0]? :=
  ⟨blind_wf 0 0 0, blind_wf 0 0 1, by decide, by decide!, by decide!, by decide⟩

/-- C8 (amended): flat-index layout.  For a well-formed call the builder returns
the buffers of the data-parallel formulation.  For every voxel `(xi, yi, zi)`
in range and `k = zi*n_y*n_x + yi*n_x + xi`, the pair `LUT[2*k]`, `LUT[2*k+1]`
is the outcome `pairOf` of the camera scan of the voxel, computed from the
voxel's indices and the read-only inputs alone; the flag `valid[k]` is `flagOf`:
`1` when the scan finds a passing camera and otherwise the value the caller
stored at `valid[k]` before the call.  Pair and flag are those left by one run
of the loop body for that voxel alone, started on the caller's buffers with
`offset` set to `k`.  Every `k` below `total` is the flat index of exactly one
voxel. -/
theorem C8_flat_layout {F : Type} (A : FloatOps F) (c : Call F) (n_channels : Int)
    (L0 V0 : List Int) (vol0 : List F) (hwf : WellFormed c L0 V0) :
    ∃ r, c.build A n_channels L0 V0 vol0 = some r ∧
      r.LUT = c.parallelLUT A ∧ r.valid = c.parallelValid A V0 ∧
      (∀ xi yi zi, xi < c.nx → yi < c.ny → zi < c.nz →
        ∃ s, voxelBody A c.params zi yi xi
            { bufs := { LUT := L0, valid := V0, volume := vol0 },
              offset := c.flat xi yi zi } = some s ∧
          r.LUT[2 * c.flat xi yi zi]? = s.bufs.LUT[2 * c.flat xi yi zi]? ∧
          r.LUT[2 * c.flat xi yi zi + 1]? = s.bufs.LUT[2 * c.flat xi yi zi + 1]? ∧
          r.valid[c.flat xi yi zi]? = s.bufs.valid[c.flat xi yi zi]? ∧
          r.LUT[2 * c.flat xi yi zi]? = some (c.pairOf A xi yi zi).1 ∧
          r.LUT[2 * c.flat xi yi zi + 1]? = some (c.pairOf A xi yi zi).2 ∧
          r.valid[c.flat xi yi zi]? =
            some (c.flagOf A xi yi zi (V0.getD (c.flat xi yi zi) 0))) ∧
      (∀ k, k < c.total →
        ∃! v : Nat × Nat × Nat,
          v.1 < c.nx ∧ v.2.1 < c.ny ∧ v.2.2 < c.nz ∧ c.flat v.1 v.2.1 v.2.2 = k) := by
  have hn := projection_small c L0 V0 hwf
  obtain ⟨r, hr, _, hslots⟩ := build_voxel A c n_channels L0 V0 vol0 hwf
  have e := build_eq_parallel A c n_channels L0 V0 vol0 hwf
  rw [hr] at e
  simp only [Option.some.injEq] at e
  refine ⟨r, hr, by rw [e], by rw [e], ?_, ?_⟩
  · intro xi yi zi hx hy hz
    have hk := flat_lt_total c xi yi zi hx hy hz
    have hL := hwf.lut_len
    have hV := hwf.valid_len
    obtain ⟨h1, h2, h3⟩ := hslots xi yi zi hx hy hz
    refine ⟨_, voxelBody_eq A c xi yi zi hwf.projection_len hn
      { bufs := { LUT := L0, valid := V0, volume := vol0 }, offset := c.flat xi yi zi }
      (by simp only; omega) (by simp only; omega) hwf.lut_size_t, ?_, ?_, ?_, h1, h2, h3⟩
    · rw [h1]
      simp only [List.getElem?_set, List.length_set]
      rw [if_neg (by omega), if_pos (by omega), if_pos (by omega)]
    · rw [h2]
      simp only [List.getElem?_set, List.length_set]
      rw [if_pos (by omega), if_pos (by omega)]
    · rw [h3]
      unfold Call.flagOf
      cases c.firstVisible A xi yi zi with
      | none =>
        simp only
        have : c.flat xi yi zi < V0.length := by omega
        simp [List.getD, List.getElem?_eq_getElem this]
      | some m =>
        simp only [List.getElem?_set]
        rw [if_pos trivial, if_pos (by omega)]
  · intro k hk
    obtain ⟨d1, d2, d3, d4⟩ := flat_decode c k hwf.nx_pos hwf.ny_pos hk
    refine ⟨c.decode k, ⟨d1, d2, d3, d4⟩, ?_⟩
    intro v ⟨v1, v2, _, v4⟩
    have := decode_flat c v.1 v.2.1 v.2.2 v1 v2
    rw [v4] at this
    rw [this]

/-- Instance of C8 on the call of the repository test with both buffers filled
with `7`: the unobserved voxel `(0, 0, 0)` of slot `0` ends with the pair
`(-1, 0)` and keeps the caller's flag `7`; the observed voxel `(1, 1, 1)` of
slot `7` ends with the pair `(0, 0)` and the flag `1`. -/
theorem C8_flat_layout_witness :
    WellFormed demoCall (List.replicate 16 7) (List.replicate 8 7) ∧
    demoCall.flat 0 0 0 = 0 ∧ demoCall.flat 1 1 1 = 7 ∧
    ∃ r, demoCall.build exactOps 1 (List.replicate 16 7) (List.replicate 8 7) [] = some r ∧
      r.LUT = demoCall.parallelLUT exactOps ∧
      r.valid = demoCall.parallelValid exactOps (List.replicate 8 7) ∧
      (r.LUT[0]? = some (-1) ∧ r.LUT[1]? = some 0 ∧ r.valid[0]? = some 7) ∧
      (r.LUT[14]? = some 0 ∧ r.LUT[15]? = some 0 ∧ r.valid[7]? = some 1) ∧
      (∃ s, voxelBody exactOps demoCall.params 1 1 1
            { bufs := { LUT := List.replicate 16 7, valid := List.replicate 8 7, volume := [] },
              offset := demoCall.flat 1 1 1 } = some s ∧
          r.LUT[2 * demoCall.flat 1 1 1]? = s.bufs.LUT[2 * demoCall.flat 1 1 1]? ∧
          r.LUT[2 * demoCall.flat 1 1 1 + 1]? = s.bufs.LUT[2 * demoCall.flat 1 1 1 + 1]? ∧
          r.valid[demoCall.flat 1 1 1]? = s.bufs.valid[demoCall.flat 1 1 1]?) ∧
      (∀ k, k < demoCall.total →
        ∃! v : Nat × Nat × Nat,
          v.1 < demoCall.nx ∧ v.2.1 < demoCall.ny ∧ v.2.2 < demoCall.nz ∧
            demoCall.flat v.1 v.2.1 v.2.2 = k) := by
  have hwf : WellFormed demoCall (List.replicate 16 7) (List.replicate 8 7) := by
    constructor <;> first | decide | rfl
  have p0 : demoCall.pairOf exactOps 0 0 0 = (-1, 0) := by decide!
  have f0 : demoCall.flagOf exactOps 0 0 0
      ((List.replicate 8 (7 : Int)).getD (demoCall.flat 0 0 0) 0) = 7 := by decide!
  have p7 : demoCall.pairOf exactOps 1 1 1 = (0, 0) := by decide!
  have f7 : demoCall.flagOf exactOps 1 1 1
      ((List.replicate 8 (7 : Int)).getD (demoCall.flat 1 1 1) 0) = 1 := by decide!
  obtain ⟨r, hr, hL, hV, hvox, huniq⟩ :=
    C8_flat_layout exactOps demoCall 1 (List.replicate 16 7) (List.replicate 8 7) [] hwf
  obtain ⟨_, _, _, _, _, a1, a2, a3⟩ := hvox 0 0 0 (by decide) (by decide) (by decide)
  obtain ⟨s, hs, b1, b2, b3, c1, c2, c3⟩ := hvox 1 1 1 (by decide) (by decide) (by decide)
  rw [p0] at a1 a2
  rw [f0] at a3
  rw [p7] at c1 c2
  rw [f7] at c3
  exact ⟨hwf, by decide, by decide, r, hr, hL, hV, ⟨a1, a2, a3⟩, ⟨c1, c2, c3⟩,
    ⟨s, hs, b1, b2, b3⟩, huniq⟩

/-- C9: totality and index safety.  On a well-formed call the builder returns:
no read of `n_voxels`, `voxel_size`, `origin` or `projection` and no write of
`LUT` or `valid` leaves its buffer (the checked model would return `none`),
and the buffers keep their sizes. -/
theorem C9_total_and_index_safe {F : Type} (A : FloatOps F) (c : Call F) (n_channels : Int)
    (L0 V0 : List Int) (vol0 : List F) (hwf : WellFormed c L0 V0) :
    ∃ r, c.build A n_channels L0 V0 vol0 = some r ∧
      r.LUT.length = L0.length ∧ r.valid.length = V0.length := by
  obtain ⟨s, hs, hd⟩ := build_done A c n_channels L0 V0 vol0 hwf
  exact ⟨s.bufs, hs, hd.lut_len, hd.valid_len⟩

/-- Instance of C9 on the call of the repository test. -/
theorem C9_total_and_index_safe_witness :
    WellFormed demoCall demoLUT demoValid ∧
    ∃ r, demoCall.build exactOps 1 demoLUT demoValid [] = some r ∧
      r.LUT.length = demoLUT.length ∧ r.valid.length = demoValid.length :=
  ⟨demo_wf, C9_total_and_index_safe exactOps demoCall 1 demoLUT demoValid [] demo_wf⟩

/-- C10: determinism and non-interference.  Two well-formed calls that agree on
the grid, the tensors, `n_images`, `height`, `width` and the initial contents of
`LUT` and `valid`, whatever their `n_channels` and `volume` buffers, both return,
with identical final `LUT` and `valid`, and each leaves its `volume` buffer as
it was. -/
theorem C10_deterministic_volume_untouched {F : Type} (A : FloatOps F) (c : Call F)
    (n_channels1 n_channels2 : Int) (L0 V0 : List Int) (vol1 vol2 : List F)
    (hwf : WellFormed c L0 V0) :
    ∃ r1 r2, c.build A n_channels1 L0 V0 vol1 = some r1 ∧
      c.build A n_channels2 L0 V0 vol2 = some r2 ∧
      r1.LUT = r2.LUT ∧ r1.valid = r2.valid ∧ r1.volume = vol1 ∧ r2.volume = vol2 :=
  ⟨_, _, build_eq_parallel A c n_channels1 L0 V0 vol1 hwf,
    build_eq_parallel A c n_channels2 L0 V0 vol2 hwf, rfl, rfl, rfl, rfl⟩

/-- Instance of C10 on the call of the repository test, with one channel and an
empty `volume` against three channels and a `volume` of eight entries. -/
theorem C10_deterministic_volume_untouched_witness :
    WellFormed demoCall demoLUT demoValid ∧
    ∃ r1 r2, demoCall.build exactOps 1 demoLUT demoValid [] = some r1 ∧
      demoCall.build exactOps 3 demoLUT demoValid (List.replicate 8 5) = some r2 ∧
      r1.LUT = r2.LUT ∧ r1.valid = r2.valid ∧ r1.volume = [] ∧
      r2.volume = List.replicate 8 5 :=
  ⟨demo_wf,
    C10_deterministic_volume_untouched exactOps demoCall 1 3 demoLUT demoValid []
      (List.replicate 8 5) demo_wf⟩


/-! ## The duplicate in src/main.cpp agrees with src/buildLut.h -/

theorem main_arRow_eq {F : Type} (A : FloatOps F) (P : List F) (img i : Int) (pt0 pt1 pt2 : F) :
    Main.arRow A P img i [pt0, pt1, pt2] = projectRow A P img i pt0 pt1 pt2 := by
  unfold Main.arRow projectRow projIndex
  cases readAt P (wrap32 (wrap32 (wrap32 (wrap32 (img * 3) + i) * 4) + 3)) with
  | none => rfl
  | some a =>
    simp only [Option.bind_eq_bind, Option.some_bind, List.foldlM_cons, List.foldlM_nil,
      Nat.cast_zero, Nat.cast_one, Nat.cast_ofNat, List.getElem?_cons_zero,
      List.getElem?_cons_succ, Option.pure_def]
    cases readAt P (wrap32 (wrap32 (wrap32 (wrap32 (img * 3) + i) * 4) + 0)) with
    | none => rfl
    | some p0 =>
      simp only [Option.some_bind]
      cases readAt P (wrap32 (wrap32 (wrap32 (wrap32 (img * 3) + i) * 4) + 1)) with
      | none => rfl
      | some p1 =>
        simp only [Option.some_bind]
        cases readAt P (wrap32 (wrap32 (wrap32 (wrap32 (img * 3) + i) * 4) + 2)) with
        | none => rfl
        | some p2 => rfl

theorem main_cameraLoop_eq {F : Type} (A : FloatOps F) (p : Params F) (xi yi zi : Int)
    (offset : Nat) (cams : List Nat) (b : Buffers F) :
    Main.cameraLoop A p.n_x p.n_y p.n_z p.size_x p.size_y p.size_z
        p.origin_x p.origin_y p.origin_z p.P p.height p.width xi yi zi offset cams b =
      cameraLoop A p xi yi zi offset cams b := by
  induction cams with
  | nil => rfl
  | cons img rest ih =>
    rw [Main.cameraLoop, cameraLoop]
    simp only [main_arRow_eq, worldCoord, ih]

theorem main_build_eq {F : Type} (A : FloatOps F) (n_voxels : List Int)
    (vd od pd : List F) (dimsV dimsO dimsP shapeV shapeO shapeP : List Int)
    (n_images height width n_channels : Int) (LUT valid : List Int) (volume : List F) :
    Main.build_LUT_CPU A n_voxels (Main.Tensor.construct vd shapeV)
        (Main.Tensor.construct od shapeO) (Main.Tensor.construct pd shapeP)
        n_images height width n_channels LUT valid volume =
      build_LUT_CPU A n_voxels { dims_ := dimsV, data_ := vd } { dims_ := dimsO, data_ := od }
        { dims_ := dimsP, data_ := pd } n_images height width n_channels LUT valid volume := by
  unfold Main.build_LUT_CPU build_LUT_CPU
  simp only [Main.Tensor.get_data, Main.Tensor.construct, Tensor.get_data, voxelBody,
    ← main_cameraLoop_eq]

/-- C11: the reference scenario of the specification.  For the `2 x 2 x 2` grid
of unit voxels at the origin, the camera `[[1,0,0,0],[0,1,0,0],[0,0,1,1]]`, a
`2 x 2` image, `LUT` pre-filled with `-1` and `valid` with `0`: the voxel at
flat offset `0` has world centre `(-1, -1, -1)`, its projected depth is
`-1 + 1 = 0`, it fails the test `depth > 0`, and after the call
`valid[0] == 0` and `LUT[0] == -1`. -/
theorem C11_reference_scenario :
    demoCall.flat 0 0 0 = 0 ∧
    worldCoord exactOps 0 demoCall.nx demoCall.sx demoCall.ox = -1 ∧
    worldCoord exactOps 0 demoCall.ny demoCall.sy demoCall.oy = -1 ∧
    worldCoord exactOps 0 demoCall.nz demoCall.sz demoCall.oz = -1 ∧
    demoCall.ar exactOps 0 0 0 0 2 = -1 + 1 ∧
    demoCall.ar exactOps 0 0 0 0 2 = 0 ∧
    exactOps.lt (exactOps.ofInt 0) (demoCall.ar exactOps 0 0 0 0 2) = false ∧
    demoCall.passes exactOps 0 0 0 0 = false ∧
    ∃ r, demoCall.build exactOps 1 demoLUT demoValid [] = some r ∧
      r.valid[0]? = some 0 ∧ r.LUT[0]? = some (-1) :=
  ⟨by decide, by decide!, by decide!, by decide!, by decide!, by decide!, by decide!,
    by decide!,
    ⟨{ LUT := [-1, 0, -1, 0, -1, 0, -1, 0, -1, 0, -1, 0, -1, 0, 0, 0],
       valid := [0, 0, 0, 0, 0, 0, 0, 1], volume := [] },
      by decide!, by decide, by decide⟩⟩

/-- C12: the test of src/main.cpp.  On the input of `test_build_LUT_CPU`, for
any content of the `volume` buffer, the `build_LUT_CPU` of src/main.cpp returns
with `LUT[0] == -1`, `LUT[1] == 0` and `valid[0] == 0`: the assertions
`LUT[0] == 0` and `valid[0] == 1` of the test do not hold, the first voxel is
not observed. -/
theorem C12_test_assertions_evaluated (volume : List ℚ) :
    ∃ r, demoCall.buildMain exactOps [3] [3] [1, 3, 4] 1 demoLUT demoValid volume = some r ∧
      r.LUT[0]? = some (-1) ∧ r.LUT[1]? = some 0 ∧ r.valid[0]? = some 0 ∧
      r.LUT[0]? ≠ some 0 ∧ r.valid[0]? ≠ some 1 := by
  have h := build_withVolume exactOps [(demoCall.nx : Int), (demoCall.ny : Int), (demoCall.nz : Int)]
    { dims_ := demoCall.dimsV, data_ := [demoCall.sx, demoCall.sy, demoCall.sz] }
    { dims_ := demoCall.dimsO, data_ := [demoCall.ox, demoCall.oy, demoCall.oz] }
    { dims_ := demoCall.dimsP, data_ := demoCall.P }
    (demoCall.n_images : Int) (demoCall.height : Int) (demoCall.width : Int) 1 1
    demoLUT demoValid volume []
  have e : demoCall.build exactOps 1 demoLUT demoValid [] =
      some { LUT := [-1, 0, -1, 0, -1, 0, -1, 0, -1, 0, -1, 0, -1, 0, 0, 0],
             valid := [0, 0, 0, 0, 0, 0, 0, 1], volume := [] } := by decide!
  unfold Call.build at e
  rw [e] at h
  refine ⟨{ LUT := [-1, 0, -1, 0, -1, 0, -1, 0, -1, 0, -1, 0, -1, 0, 0, 0],
            valid := [0, 0, 0, 0, 0, 0, 0, 1], volume := volume }, ?_, ?_⟩
  · unfold Call.buildMain
    rw [main_build_eq exactOps _ _ _ _ demoCall.dimsV demoCall.dimsO demoCall.dimsP]
    exact h
  · simp

/-- C13 fails on the code: for `dims = {4, 1073741825}` and four data values the
`int` product `total_size` overflows (`4 * 1073741825 = 2^32 + 4` wraps to `4`),
so the constructor accepts the tensor although neither list is empty and the
product of the entries of `dims`, `4294967300`, differs from the data length
`4`. -/
theorem C13_constructor_accepts_mismatch :
    Tensor.construct [4, 1073741825] [(0 : ℚ), 0, 0, 0] =
      Except.ok { dims_ := [4, 1073741825], data_ := [0, 0, 0, 0] } ∧
    ([4, 1073741825] : List Int) ≠ [] ∧ ([(0 : ℚ), 0, 0, 0] : List ℚ) ≠ [] ∧
    ([4, 1073741825] : List Int).prod = 4294967300 ∧
    ([4, 1073741825] : List Int).prod ≠ (([(0 : ℚ), 0, 0, 0] : List ℚ).length : Int) ∧
    Tensor.total_size [4, 1073741825] = 4 :=
  ⟨by rfl, by decide, by simp, by decide, by decide, by decide⟩

/-- C14, as stated, fails in the single precision of the builder.  For
`n = 16777217` the conversion `int -> float` rounds `n` to `16777216`, so the
coordinate of index `0` (size `1`, origin `0`) is `-8388608`, not
`-n/2 = -8388608.5`.  For `n = 12`, index `11` and the size `0.7f`
(`11744051 / 2^24`) the product `5 * 0.7f` rounds to `3.5`, not the exact
`(11 - 12/2) * s`; on `roundingCall` the builder therefore records the pixel
`4` for the last voxel, where the exact formula gives the pixel `3`. -/
theorem C14_counterexample :
    binary32Ops.ofInt 16777217 = 16777216 ∧
    worldCoord binary32Ops 0 16777217 1 0 = -8388608 ∧
    ((0 : ℚ) - (16777217 : ℚ) / 2) * 1 + 0 = -16777217 / 2 ∧
    worldCoord binary32Ops 0 16777217 1 0 ≠ ((0 : ℚ) - (16777217 : ℚ) / 2) * 1 + 0 ∧
    roundF32 (7 / 10) = 11744051 / 16777216 ∧
    worldCoord binary32Ops 11 12 (11744051 / 16777216) 0 = 7 / 2 ∧
    worldCoord binary32Ops 11 12 (11744051 / 16777216) 0 ≠
      ((11 : ℚ) - (12 : ℚ) / 2) * (11744051 / 16777216) + 0 ∧
    WellFormed roundingCall (List.replicate 24 0) (List.replicate 12 0) ∧
    (roundingCall.build binary32Ops 1 (List.replicate 24 0) (List.replicate 12 0) []).map
      (fun r => (r.LUT[2 * roundingCall.flat 11 0 0]?,
        r.LUT[2 * roundingCall.flat 11 0 0 + 1]?)) = some (some 0, some 4) ∧
    (roundingCall.build exactOps 1 (List.replicate 24 0) (List.replicate 12 0) []).map
      (fun r => (r.LUT[2 * roundingCall.flat 11 0 0]?,
        r.LUT[2 * roundingCall.flat 11 0 0 + 1]?)) = some (some 0, some 3) :=
  ⟨by decide!, by decide!, by norm_num, by decide!, by decide!, by decide!, by decide!,
    by constructor <;> first | decide | rfl, by decide!, by decide!⟩

/-- C14 (amended): voxel centring convention.  The coordinate the builder
projects for the index `idx` of an axis with count `n`, voxel size `s` and
origin `o` is the float expression `(idx - n / 2.0f) * s + o`, with a float
division by `2.0f` and no `+ 0.5` term.  Whenever its five float operations are
exact (`ExactAt`: always in exact arithmetic, and in single precision for
instance at `n = 3`, `s = 1`, `o = 0`), its value is `(idx - n/2) * s + o` with
`n/2` the exact half of `n`, so index `0` lies at `o - n*s/2`; for `n = 3`,
`s = 1`, `o = 0`, `idx = 0` the value is `-3/2`, not the `-1` of an integer
division. -/
theorem C14_centring_convention {F : Type} (A : FloatOps F) (val : F → ℚ) (idx n : Int)
    (s o : F) (q r : ℚ) (c : Call ℚ) (xi yi zi cam i : Nat)
    (h : ExactAt A val idx n s o) :
    worldCoord A idx n s o =
      A.add (A.mul (A.sub (A.ofInt idx) (A.div (A.ofInt n) A.two)) s) o ∧
    val (worldCoord A idx n s o) = ((idx : ℚ) - (n : ℚ) / 2) * val s + val o ∧
    (idx = 0 → val (worldCoord A idx n s o) = val o - (n : ℚ) * val s / 2) ∧
    worldCoord exactOps idx n q r = ((idx : ℚ) - (n : ℚ) / 2) * q + r ∧
    worldCoord exactOps 0 n q r = r - (n : ℚ) * q / 2 ∧
    worldCoord exactOps 0 3 1 0 = -3 / 2 ∧
    worldCoord binary32Ops 0 3 1 0 = -3 / 2 ∧
    worldCoord exactOps 0 3 1 0 ≠ -1 ∧
    worldCoord exactOps 0 3 1 0 ≠ (((0 - 3 / 2 : Int) : ℚ)) * 1 + 0 ∧
    worldCoord exactOps idx n 1 0 ≠ ((idx : ℚ) + 1 / 2 - (n : ℚ) / 2) * 1 + 0 ∧
    c.ar exactOps xi yi zi cam i = arOf exactOps c.P cam i
      (((xi : ℚ) - (c.nx : ℚ) / 2) * c.sx + c.ox)
      (((yi : ℚ) - (c.ny : ℚ) / 2) * c.sy + c.oy)
      (((zi : ℚ) - (c.nz : ℚ) / 2) * c.sz + c.oz) := by
  have hval : val (worldCoord A idx n s o) = ((idx : ℚ) - (n : ℚ) / 2) * val s + val o := by
    unfold worldCoord
    rw [h.add, h.mul, h.sub, h.div, h.ofInt_idx, h.ofInt_n, h.two]
  refine ⟨rfl, hval, ?_, ?_, ?_, ?_, ?_, ?_, ?_, ?_, ?_⟩
  · intro h0
    rw [hval, h0]
    push_cast
    ring
  · simp [worldCoord, exactOps]
  · simp only [worldCoord, exactOps]; push_cast; ring
  · simp only [worldCoord, exactOps]; norm_num
  · decide!
  · simp only [worldCoord, exactOps]; norm_num
  · simp only [worldCoord, exactOps]; norm_num
  · simp only [worldCoord, exactOps]
    intro h
    linarith
  · simp [Call.ar, worldCoord, exactOps]

/-- Instance of C14 in the single precision interpretation: at `n = 3`, `s = 1`,
`o = 0`, `idx = 0` the five operations are exact and the coordinate is
`(0 - 3/2) * 1 + 0`. -/
theorem C14_centring_convention_witness :
    ExactAt binary32Ops id 0 3 1 0 ∧
    id (worldCoord binary32Ops 0 3 1 0) = ((0 : ℚ) - (3 : ℚ) / 2) * id 1 + id 0 ∧
    id (worldCoord binary32Ops 0 3 1 0) = id 0 - (3 : ℚ) * id 1 / 2 :=
  have h : ExactAt binary32Ops id 0 3 1 0 := by constructor <;> decide!
  have t := C14_centring_convention binary32Ops id 0 3 1 0 1 0 demoCall 0 0 0 0 0 h
  ⟨h, by simpa using t.2.1, by simpa using t.2.2.1 rfl⟩

theorem roundHalfAway_window (q : ℚ) (w : Int) :
    (0 ≤ roundHalfAway q ∧ roundHalfAway q < w) ↔ (-1 / 2 < q ∧ q < (w : ℚ) - 1 / 2) := by
  unfold roundHalfAway
  by_cases hq : 0 ≤ q
  · rw [if_pos hq]
    have h0 : 0 ≤ Int.floor (q + 1 / 2) := Int.floor_nonneg.mpr (by linarith)
    rw [Int.floor_lt]
    constructor
    · intro ⟨_, h⟩
      exact ⟨by linarith, by linarith⟩
    · intro ⟨_, h⟩
      exact ⟨h0, by linarith⟩
  · rw [if_neg hq]
    have hq' : q < 0 := lt_of_not_le hq
    constructor
    · intro ⟨h1, h2⟩
      have hf : Int.floor (-q + 1 / 2) < 1 := by omega
      rw [Int.floor_lt] at hf
      have hq2 : -1 / 2 < q := by push_cast at hf; linarith
      have hz : Int.floor (-q + 1 / 2) = 0 := by
        rw [Int.floor_eq_iff]
        constructor <;> push_cast <;> linarith
      rw [hz] at h2
      have hw : (1 : Int) ≤ w := by omega
      have hw' : (1 : ℚ) ≤ (w : ℚ) := by exact_mod_cast hw
      exact ⟨hq2, by linarith⟩
    · intro ⟨h1, h2⟩
      have hz : Int.floor (-q + 1 / 2) = 0 := by
        rw [Int.floor_eq_iff]
        constructor <;> push_cast <;> linarith
      rw [hz]
      have hw' : (0 : ℚ) < (w : ℚ) := by linarith
      have hw : (0 : Int) < w := by exact_mod_cast hw'
      exact ⟨by omega, by omega⟩

theorem passes_iff_visibilityTest {F : Type} (A : FloatOps F) (c : Call F)
    (xi yi zi cam : Nat) :
    c.passes A xi yi zi cam = true ↔
      visibilityTest A (c.ar A xi yi zi cam 0) (c.ar A xi yi zi cam 1)
        (c.ar A xi yi zi cam 2) c.width c.height := by
  rw [passes_iff]
  unfold visibilityTest Call.px Call.py
  constructor
  · intro ⟨h1, h2, h3, h4, h5⟩
    exact ⟨h1, h3, h2, h4, h5⟩
  · intro ⟨h1, h3, h2, h4, h5⟩
    exact ⟨h1, h2, h3, h4, h5⟩

theorem visibilityTest_exact (ar0 ar1 ar2 : ℚ) (width height : Int) :
    visibilityTest exactOps ar0 ar1 ar2 width height ↔
      (0 < ar2 ∧ -1 / 2 < ar0 / ar2 ∧ ar0 / ar2 < (width : ℚ) - 1 / 2 ∧
        -1 / 2 < ar1 / ar2 ∧ ar1 / ar2 < (height : ℚ) - 1 / 2) := by
  have hx := roundHalfAway_window (ar0 / ar2) width
  have hy := roundHalfAway_window (ar1 / ar2) height
  unfold visibilityTest
  simp only [exactOps, decide_eq_true_eq, Int.cast_zero, ge_iff_le]
  constructor
  · intro ⟨h1, h2, h3, h4, h5⟩
    obtain ⟨a1, a2⟩ := hx.mp ⟨h1, h3⟩
    obtain ⟨b1, b2⟩ := hy.mp ⟨h2, h4⟩
    exact ⟨h5, a1, a2, b1, b2⟩
  · intro ⟨h5, a1, a2, b1, b2⟩
    obtain ⟨h1, h3⟩ := hx.mpr ⟨a1, a2⟩
    obtain ⟨h2, h4⟩ := hy.mpr ⟨b1, b2⟩
    exact ⟨h1, h2, h3, h4, h5⟩

/-- C15: the two definitions of `build_LUT_CPU` are equivalent.  For all
arguments and all initial contents of `LUT`, `valid` and `volume`, the function
of src/main.cpp and the function of src/buildLut.h, called on tensors with the
same data, give the same result (the same final `LUT`, `valid` and `volume`, or
both leave a buffer); on a well-formed call both return, with the same
buffers. -/
theorem C15_duplicate_equivalent {F : Type} (A : FloatOps F) (c : Call F)
    (shapeV shapeO shapeP : List Int) (n_channels : Int) (L0 V0 : List Int) (vol0 : List F) :
    (∀ (n_voxels : List Int) (vd od pd : List F) (dimsV dimsO dimsP : List Int)
        (n_images height width : Int),
      Main.build_LUT_CPU A n_voxels (Main.Tensor.construct vd shapeV)
          (Main.Tensor.construct od shapeO) (Main.Tensor.construct pd shapeP)
          n_images height width n_channels L0 V0 vol0 =
        build_LUT_CPU A n_voxels { dims_ := dimsV, data_ := vd }
          { dims_ := dimsO, data_ := od } { dims_ := dimsP, data_ := pd }
          n_images height width n_channels L0 V0 vol0) ∧
    (WellFormed c L0 V0 →
      ∃ r, c.buildMain A shapeV shapeO shapeP n_channels L0 V0 vol0 = some r ∧
        c.build A n_channels L0 V0 vol0 = some r) := by
  refine ⟨fun n_voxels vd od pd dimsV dimsO dimsP n_images height width =>
    main_build_eq A n_voxels vd od pd dimsV dimsO dimsP shapeV shapeO shapeP
      n_images height width n_channels L0 V0 vol0, ?_⟩
  intro hwf
  obtain ⟨s, hs, _⟩ := build_done A c n_channels L0 V0 vol0 hwf
  refine ⟨s.bufs, ?_, hs⟩
  unfold Call.buildMain
  rw [main_build_eq A _ _ _ _ c.dimsV c.dimsO c.dimsP]
  exact hs

/-- Instance of C15 on the call of the repository test. -/
theorem C15_duplicate_equivalent_witness :
    WellFormed demoCall demoLUT demoValid ∧
    ∃ r, demoCall.buildMain exactOps [3] [3] [1, 3, 4] 1 demoLUT demoValid [] = some r ∧
      demoCall.build exactOps 1 demoLUT demoValid [] = some r :=
  ⟨demo_wf,
    (C15_duplicate_equivalent exactOps demoCall [3] [3] [1, 3, 4] 1 demoLUT demoValid []).2
      demo_wf⟩

/-- C16: the visibility test in exact arithmetic.  With round-half-away-from-zero
a camera with projected values `(ar_0, ar_1, ar_2)` passes the test of the
builder if and only if `ar_2 > 0`, `-1/2 < ar_0/ar_2 < width - 1/2` and
`-1/2 < ar_1/ar_2 < height - 1/2`; the same holds for the test of camera `cam`
on a voxel of a call.  The bounds are strict: `-1/2` rounds to `-1` and
`width - 1/2` rounds to `width`, both outside the image. -/
theorem C16_half_pixel_window (ar0 ar1 ar2 : ℚ) (width height : Int) (c : Call ℚ)
    (xi yi zi cam : Nat) (w : Nat) :
    (visibilityTest exactOps ar0 ar1 ar2 width height ↔
      (0 < ar2 ∧ -1 / 2 < ar0 / ar2 ∧ ar0 / ar2 < (width : ℚ) - 1 / 2 ∧
        -1 / 2 < ar1 / ar2 ∧ ar1 / ar2 < (height : ℚ) - 1 / 2)) ∧
    (c.passes exactOps xi yi zi cam = true ↔
      (0 < c.ar exactOps xi yi zi cam 2 ∧
        -1 / 2 < c.ar exactOps xi yi zi cam 0 / c.ar exactOps xi yi zi cam 2 ∧
        c.ar exactOps xi yi zi cam 0 / c.ar exactOps xi yi zi cam 2 < (c.width : ℚ) - 1 / 2 ∧
        -1 / 2 < c.ar exactOps xi yi zi cam 1 / c.ar exactOps xi yi zi cam 2 ∧
        c.ar exactOps xi yi zi cam 1 / c.ar exactOps xi yi zi cam 2 <
          (c.height : ℚ) - 1 / 2)) ∧
    exactOps.round (-1 / 2) = -1 ∧
    exactOps.round (((w + 1 : Nat) : ℚ) - 1 / 2) = ((w + 1 : Nat) : Int) := by
  refine ⟨visibilityTest_exact ar0 ar1 ar2 width height, ?_, ?_, ?_⟩
  · rw [passes_iff_visibilityTest, visibilityTest_exact]
    simp
  · simp only [exactOps, roundHalfAway]
    norm_num
  · simp only [exactOps, roundHalfAway]
    have h0 : (0 : ℚ) ≤ ((w + 1 : Nat) : ℚ) - 1 / 2 := by 
      have hw : (0 : ℚ) ≤ (w : ℚ) := Nat.cast_nonneg w
      push_cast
      linarith
    rw [if_pos h0]
    have : ((w + 1 : Nat) : ℚ) - 1 / 2 + 1 / 2 = (((w + 1 : Nat) : Int) : ℚ) := by push_cast; ring
    rw [this, Int.floor_intCast]

theorem pixel_div_mod (x y w : Int) (hx0 : 0 ≤ x) (hx1 : x < w) :
    (y * w + x) / w = y ∧ (y * w + x) % w = x := by
  have hw : 0 < w := lt_of_le_of_lt hx0 hx1
  rw [Int.ediv_emod_unique hw]
  exact ⟨by ring, hx0, hx1⟩

/-- C17, as stated, fails: on `wideCall` the voxel is recorded for camera `0`
with the pixel entry `-1`, and `-1 div width` is not the row `y = 65535`. -/
theorem C17_counterexample :
    WellFormed wideCall [0, 0] [0] ∧
    wideCall.build exactOps 1 [0, 0] [0] [] = some { LUT := [0, -1], valid := [1], volume := [] } ∧
    ([0, -1] : List Int)[2 * wideCall.flat 0 0 0]? = some 0 ∧
    ([0, -1] : List Int)[2 * wideCall.flat 0 0 0 + 1]? = some (-1) ∧
    wideCall.py exactOps 0 0 0 0 = 65535 ∧
    (-1 : Int) / (wideCall.width : Int) ≠ wideCall.py exactOps 0 0 0 0 :=
  ⟨wide_wf, by decide!, by decide, by decide, by decide!, by decide!⟩

/-- C17 (amended): the pixel entry can be decoded when `width * height <= 2^31`.
For a well-formed call with `width * height <= 2^31` and every voxel whose final
camera entry `cam` is not `-1`, with `p` the final `LUT[2*o+1]` and `(x, y)` the
rounded image coordinates of the voxel in camera `cam`: `p div width == y` and
`p mod width == x`; hence two observed voxels of the same camera with the same
pixel entry have the same rounded pixel `(x, y)`. -/
theorem C17_pixel_decodable {F : Type} (A : FloatOps F) (c : Call F) (n_channels : Int)
    (L0 V0 : List Int) (vol0 : List F) (hwf : WellFormed c L0 V0)
    (hsz : c.width * c.height ≤ 2147483648) :
    ∃ r, c.build A n_channels L0 V0 vol0 = some r ∧
      (∀ xi yi zi, xi < c.nx → yi < c.ny → zi < c.nz →
        ∀ cam : Int, r.LUT[2 * c.flat xi yi zi]? = some cam → cam ≠ -1 →
          ∃ p : Int, r.LUT[2 * c.flat xi yi zi + 1]? = some p ∧
            p / (c.width : Int) = c.py A xi yi zi cam.toNat ∧
            p % (c.width : Int) = c.px A xi yi zi cam.toNat) ∧
      (∀ xi yi zi xj yj zj, xi < c.nx → yi < c.ny → zi < c.nz →
        xj < c.nx → yj < c.ny → zj < c.nz →
        ∀ cam : Int, cam ≠ -1 →
          r.LUT[2 * c.flat xi yi zi]? = some cam → r.LUT[2 * c.flat xj yj zj]? = some cam →
          r.LUT[2 * c.flat xi yi zi + 1]? = r.LUT[2 * c.flat xj yj zj + 1]? →
          c.px A xi yi zi cam.toNat = c.px A xj yj zj cam.toNat ∧
            c.py A xi yi zi cam.toNat = c.py A xj yj zj cam.toNat) := by
  obtain ⟨r, hr, _, hslots⟩ := build_voxel A c n_channels L0 V0 vol0 hwf
  have key : ∀ xi yi zi, xi < c.nx → yi < c.ny → zi < c.nz →
      ∀ cam : Int, r.LUT[2 * c.flat xi yi zi]? = some cam → cam ≠ -1 →
        ∃ p : Int, r.LUT[2 * c.flat xi yi zi + 1]? = some p ∧
          p / (c.width : Int) = c.py A xi yi zi cam.toNat ∧
          p % (c.width : Int) = c.px A xi yi zi cam.toNat := by
    intro xi yi zi hx hy hz cam hcam hne
    obtain ⟨h1, h2, _⟩ := hslots xi yi zi hx hy hz
    rw [h1] at hcam
    rcases pairOf_cases A c xi yi zi with ⟨_, hp⟩ | ⟨m, hm, hp⟩
    · rw [hp] at hcam
      simp only [Option.some.injEq] at hcam
      exact absurd hcam.symm hne
    · rw [hp] at hcam h2
      simp only [Option.some.injEq] at hcam
      subst hcam
      obtain ⟨hpass, _, _⟩ := (firstVisible_some_iff A c xi yi zi m).mp hm
      obtain ⟨a1, a2, _, _, _⟩ := (passes_iff A c xi yi zi m).mp hpass
      simp only [Int.toNat_ofNat]
      refine ⟨_, h2, ?_⟩
      rw [(pixel_eq A c xi yi zi m hpass hsz).1]
      exact pixel_div_mod _ _ _ a1 a2
  refine ⟨r, hr, key, ?_⟩
  intro xi yi zi xj yj zj hxi hyi hzi hxj hyj hzj cam hne hci hcj hpix
  obtain ⟨p, hp, hd, hm⟩ := key xi yi zi hxi hyi hzi cam hci hne
  obtain ⟨q, hq, hd2, hm2⟩ := key xj yj zj hxj hyj hzj cam hcj hne
  rw [hp, hq] at hpix
  simp only [Option.some.injEq] at hpix
  subst hpix
  exact ⟨hm.symm.trans hm2, hd.symm.trans hd2⟩

/-- Instance of C17 on the call of the repository test, at the voxel `(1, 1, 1)`. -/
theorem C17_pixel_decodable_witness :
    WellFormed demoCall demoLUT demoValid ∧
    demoCall.width * demoCall.height ≤ 2147483648 ∧
    ∃ r, demoCall.build exactOps 1 demoLUT demoValid [] = some r ∧
      ∀ cam : Int, r.LUT[2 * demoCall.flat 1 1 1]? = some cam → cam ≠ -1 →
        ∃ p : Int, r.LUT[2 * demoCall.flat 1 1 1 + 1]? = some p ∧
          p / (demoCall.width : Int) = demoCall.py exactOps 1 1 1 cam.toNat ∧
          p % (demoCall.width : Int) = demoCall.px exactOps 1 1 1 cam.toNat :=
  ⟨demo_wf, by decide,
    (C17_pixel_decodable exactOps demoCall 1 demoLUT demoValid [] demo_wf (by decide)).imp
      (fun _ h => ⟨h.1, h.2.1 1 1 1 (by decide) (by decide) (by decide)⟩)⟩

/-! ## One more camera -/

theorem projEntry_append {F : Type} (A : FloatOps F) (P M : List F) (n cam i j : Nat)
    (hP : P.length = 12 * n) (hc : cam < n) (hi : i < 3) (hj : j < 4) :
    projEntry A (P ++ M) cam i j = projEntry A P cam i j := by
  unfold projEntry
  simp only [List.getD_eq_getElem?_getD]
  rw [List.getElem?_append_left (by omega)]

theorem appendCamera_ar {F : Type} (A : FloatOps F) (c : Call F) (dimsP : List Int)
    (M : List F) (hP : c.P.length = 12 * c.n_images) (xi yi zi cam i : Nat)
    (hc : cam < c.n_images) (hi : i < 3) :
    (c.appendCamera dimsP M).ar A xi yi zi cam i = c.ar A xi yi zi cam i := by
  unfold Call.ar arOf Call.appendCamera
  simp only
  rw [projEntry_append A c.P M c.n_images cam i 3 hP hc hi (by omega),
    projEntry_append A c.P M c.n_images cam i 0 hP hc hi (by omega),
    projEntry_append A c.P M c.n_images cam i 1 hP hc hi (by omega),
    projEntry_append A c.P M c.n_images cam i 2 hP hc hi (by omega)]

theorem appendCamera_passes {F : Type} (A : FloatOps F) (c : Call F) (dimsP : List Int)
    (M : List F) (hP : c.P.length = 12 * c.n_images) (xi yi zi cam : Nat)
    (hc : cam < c.n_images) :
    (c.appendCamera dimsP M).passes A xi yi zi cam = c.passes A xi yi zi cam ∧
      (c.appendCamera dimsP M).pixel A xi yi zi cam = c.pixel A xi yi zi cam := by
  have h0 := appendCamera_ar A c dimsP M hP xi yi zi cam 0 hc (by omega)
  have h1 := appendCamera_ar A c dimsP M hP xi yi zi cam 1 hc (by omega)
  have h2 := appendCamera_ar A c dimsP M hP xi yi zi cam 2 hc (by omega)
  unfold Call.passes Call.pixel Call.px Call.py
  rw [h0, h1, h2]
  exact ⟨rfl, rfl⟩

theorem appendCamera_pairOf {F : Type} (A : FloatOps F) (c : Call F) (dimsP : List Int)
    (M : List F) (hP : c.P.length = 12 * c.n_images) (xi yi zi : Nat) (old : Int) :
    (c.firstVisible A xi yi zi ≠ none ∧
      (c.appendCamera dimsP M).pairOf A xi yi zi = c.pairOf A xi yi zi ∧
      (c.appendCamera dimsP M).flagOf A xi yi zi old = c.flagOf A xi yi zi old) ∨
    (c.firstVisible A xi yi zi = none ∧
      ((c.appendCamera dimsP M).pairOf A xi yi zi = (-1, 0) ∨
        ((c.appendCamera dimsP M).pairOf A xi yi zi).1 = (c.n_images : Int))) := by
  cases hfv : c.firstVisible A xi yi zi with
  | some m =>
    left
    obtain ⟨hpm, hlt, hmin⟩ := (firstVisible_some_iff A c xi yi zi m).mp hfv
    have hfv' : (c.appendCamera dimsP M).firstVisible A xi yi zi = some m := by
      rw [firstVisible_some_iff]
      refine ⟨?_, ?_, ?_⟩
      · rw [(appendCamera_passes A c dimsP M hP xi yi zi m hlt).1]; exact hpm
      · show m < c.n_images + 1
        omega
      · intro j hj
        rw [(appendCamera_passes A c dimsP M hP xi yi zi j (by omega)).1]
        exact hmin j hj
    refine ⟨by simp, ?_, ?_⟩
    · unfold Call.pairOf
      rw [hfv', hfv]
      simp only
      rw [(appendCamera_passes A c dimsP M hP xi yi zi m hlt).2]
    · unfold Call.flagOf
      rw [hfv', hfv]
  | none =>
    right
    refine ⟨rfl, ?_⟩
    have hall := (firstVisible_none_iff A c xi yi zi).mp hfv
    cases hfv' : (c.appendCamera dimsP M).firstVisible A xi yi zi with
    | none =>
      left
      unfold Call.pairOf
      rw [hfv']
    | some m =>
      right
      obtain ⟨hpm, hlt, _⟩ := (firstVisible_some_iff A _ xi yi zi m).mp hfv'
      have hlt' : m < c.n_images + 1 := hlt
      have hm : m = c.n_images := by
        by_contra hne
        have hlt2 : m < c.n_images := by omega
        rw [(appendCamera_passes A c dimsP M hP xi yi zi m hlt2).1, hall m hlt2] at hpm
        exact absurd hpm (by decide)
      unfold Call.pairOf
      rw [hfv']
      simp only
      rw [hm]

/-- C18: appending a camera never disturbs earlier results.  For a well-formed
call with `N` cameras and the call with one more matrix `M` appended as camera
`N` (same grid, image size and initial buffers, itself well formed), every voxel
whose camera entry was not `-1` with `N` cameras keeps the same `LUT` pair and
the same flag, and every other voxel ends with the pair `(-1, 0)` or with the
camera entry `N`. -/
theorem C18_append_camera {F : Type} (A : FloatOps F) (c : Call F) (dimsP : List Int)
    (M : List F) (n_channels : Int) (L0 V0 : List Int) (vol0 : List F)
    (hwf : WellFormed c L0 V0) (hwf2 : WellFormed (c.appendCamera dimsP M) L0 V0) :
    ∃ r r2, c.build A n_channels L0 V0 vol0 = some r ∧
      (c.appendCamera dimsP M).build A n_channels L0 V0 vol0 = some r2 ∧
      ∀ xi yi zi, xi < c.nx → yi < c.ny → zi < c.nz →
        (r.LUT[2 * c.flat xi yi zi]? ≠ some (-1) →
          r2.LUT[2 * c.flat xi yi zi]? = r.LUT[2 * c.flat xi yi zi]? ∧
          r2.LUT[2 * c.flat xi yi zi + 1]? = r.LUT[2 * c.flat xi yi zi + 1]? ∧
          r2.valid[c.flat xi yi zi]? = r.valid[c.flat xi yi zi]?) ∧
        (r.LUT[2 * c.flat xi yi zi]? = some (-1) →
          (r2.LUT[2 * c.flat xi yi zi]? = some (-1) ∧
            r2.LUT[2 * c.flat xi yi zi + 1]? = some 0) ∨
          r2.LUT[2 * c.flat xi yi zi]? = some (c.n_images : Int)) := by
  obtain ⟨r, hr, _, hslots⟩ := build_voxel A c n_channels L0 V0 vol0 hwf
  obtain ⟨r2, hr2, _, hslots2⟩ :=
    build_voxel A (c.appendCamera dimsP M) n_channels L0 V0 vol0 hwf2
  refine ⟨r, r2, hr, hr2, ?_⟩
  intro xi yi zi hx hy hz
  obtain ⟨a1, a2, a3⟩ := hslots xi yi zi hx hy hz
  obtain ⟨b1, b2, b3⟩ := hslots2 xi yi zi hx hy hz
  have hflat : (c.appendCamera dimsP M).flat xi yi zi = c.flat xi yi zi := rfl
  rw [hflat] at b1 b2 b3
  rcases appendCamera_pairOf A c dimsP M hwf.projection_len xi yi zi
      (V0.getD (c.flat xi yi zi) 0) with ⟨hsome, hpair, hflag⟩ | ⟨hnone, hcases⟩
  · constructor
    · intro _
      rw [a1, a2, a3, b1, b2, b3, hpair, hflag]
      exact ⟨rfl, rfl, rfl⟩
    · intro h
      rw [a1] at h
      rcases pairOf_cases A c xi yi zi with ⟨hn, _⟩ | ⟨m, hm, hp⟩
      · exact absurd hn hsome
      · rw [hp] at h
        simp only [Option.some.injEq] at h
        omega
  · constructor
    · intro h
      rw [a1] at h
      rcases pairOf_cases A c xi yi zi with ⟨_, hp⟩ | ⟨m, hm, _⟩
      · rw [hp] at h
        exact absurd rfl h
      · rw [hnone] at hm
        exact absurd hm (by simp)
    · intro _
      rcases hcases with hp | hp
      · left
        rw [b1, b2, hp]
        exact ⟨rfl, rfl⟩
      · right
        rw [b1, hp]

/-- Instance of C18: the call of the repository test and the same call with
`farCamera` appended as camera `1`. -/
theorem C18_append_camera_witness :
    WellFormed demoCall demoLUT demoValid ∧
    WellFormed (demoCall.appendCamera [2, 3, 4] farCamera) demoLUT demoValid ∧
    ∃ r r2, demoCall.build exactOps 1 demoLUT demoValid [] = some r ∧
      (demoCall.appendCamera [2, 3, 4] farCamera).build exactOps 1 demoLUT demoValid [] =
        some r2 ∧
      ∀ xi yi zi, xi < demoCall.nx → yi < demoCall.ny → zi < demoCall.nz →
        (r.LUT[2 * demoCall.flat xi yi zi]? ≠ some (-1) →
          r2.LUT[2 * demoCall.flat xi yi zi]? = r.LUT[2 * demoCall.flat xi yi zi]? ∧
          r2.LUT[2 * demoCall.flat xi yi zi + 1]? = r.LUT[2 * demoCall.flat xi yi zi + 1]? ∧
          r2.valid[demoCall.flat xi yi zi]? = r.valid[demoCall.flat xi yi zi]?) ∧
        (r.LUT[2 * demoCall.flat xi yi zi]? = some (-1) →
          (r2.LUT[2 * demoCall.flat xi yi zi]? = some (-1) ∧
            r2.LUT[2 * demoCall.flat xi yi zi + 1]? = some 0) ∨
          r2.LUT[2 * demoCall.flat xi yi zi]? = some (demoCall.n_images : Int)) :=
  ⟨demo_wf, by constructor <;> first | decide | rfl,
    C18_append_camera exactOps demoCall [2, 3, 4] farCamera 1 demoLUT demoValid [] demo_wf
      (by constructor <;> first | decide | rfl)⟩

/-! ## Other camera orders -/

theorem permIndex_lt {n : Nat} (σ : Equiv.Perm (Fin n)) (cam : Nat) (h : cam < n) :
    permIndex σ cam < n := by
  unfold permIndex
  rw [dif_pos h]
  exact (σ ⟨cam, h⟩).isLt

theorem permIndex_surj {n : Nat} (σ : Equiv.Perm (Fin n)) (m : Nat) (h : m < n) :
    ∃ cam, cam < n ∧ permIndex σ cam = m := by
  refine ⟨(σ.symm ⟨m, h⟩).val, (σ.symm ⟨m, h⟩).isLt, ?_⟩
  unfold permIndex
  rw [dif_pos (σ.symm ⟨m, h⟩).isLt]
  simp

theorem projEntry_permuted {F : Type} (A : FloatOps F) (P : List F) (n : Nat)
    (σ : Equiv.Perm (Fin n)) (cam i j : Nat) (hc : cam < n) (hi : i < 3) (hj : j < 4) :
    projEntry A (permutedData A P n σ) cam i j = projEntry A P (permIndex σ cam) i j := by
  unfold projEntry permutedData
  have hk : (3 * cam + i) * 4 + j < 12 * n := by omega
  have hd : ((3 * cam + i) * 4 + j) / 12 = cam := by omega
  have hm : ((3 * cam + i) * 4 + j) % 12 = 4 * i + j := by omega
  simp only [List.getD_eq_getElem?_getD, List.getElem?_map, List.getElem?_range hk,
    Option.map_some', Option.getD_some, hd, hm]
  have e : 12 * permIndex σ cam + (4 * i + j) = (3 * permIndex σ cam + i) * 4 + j := by ring
  rw [e]

theorem permuteCameras_passes {F : Type} (A : FloatOps F) (c : Call F)
    (σ : Equiv.Perm (Fin c.n_images)) (xi yi zi cam : Nat) (hc : cam < c.n_images) :
    (c.permuteCameras A σ).passes A xi yi zi cam = c.passes A xi yi zi (permIndex σ cam) := by
  have har : ∀ i, i < 3 →
      (c.permuteCameras A σ).ar A xi yi zi cam i = c.ar A xi yi zi (permIndex σ cam) i := by
    intro i hi
    unfold Call.ar arOf Call.permuteCameras
    simp only
    rw [projEntry_permuted A c.P c.n_images σ cam i 3 hc hi (by omega),
      projEntry_permuted A c.P c.n_images σ cam i 0 hc hi (by omega),
      projEntry_permuted A c.P c.n_images σ cam i 1 hc hi (by omega),
      projEntry_permuted A c.P c.n_images σ cam i 2 hc hi (by omega)]
  unfold Call.passes Call.px Call.py
  rw [har 0 (by omega), har 1 (by omega), har 2 (by omega)]
  rfl

theorem construct_ok_of_length {F : Type} (dims : List Int) (data data2 : List F)
    (h : Tensor.construct dims data = Except.ok { dims_ := dims, data_ := data })
    (hlen : data2.length = data.length) :
    Tensor.construct dims data2 = Except.ok { dims_ := dims, data_ := data2 } := by
  unfold Tensor.construct at h ⊢
  have he : data2.isEmpty = data.isEmpty := by
    cases data <;> cases data2 <;> simp_all
  rw [he, hlen]
  split at h
  · simp at h
  · rename_i h1
    rw [if_neg h1]
    split at h
    · simp at h
    · rename_i h2
      rw [if_neg h2]

theorem permuteCameras_wf {F : Type} (A : FloatOps F) (c : Call F)
    (σ : Equiv.Perm (Fin c.n_images)) (L0 V0 : List Int) (hwf : WellFormed c L0 V0) :
    WellFormed (c.permuteCameras A σ) L0 V0 := by
  have hlen : (permutedData A c.P c.n_images σ).length = c.P.length := by
    rw [hwf.projection_len]; simp [permutedData]
  exact
    { nx_pos := hwf.nx_pos, ny_pos := hwf.ny_pos, nz_pos := hwf.nz_pos,
      nx_lt := hwf.nx_lt, ny_lt := hwf.ny_lt, nz_lt := hwf.nz_lt,
      n_images_pos := hwf.n_images_pos, n_images_lt := hwf.n_images_lt,
      height_pos := hwf.height_pos, height_lt := hwf.height_lt,
      width_pos := hwf.width_pos, width_lt := hwf.width_lt,
      voxel_size_ok := hwf.voxel_size_ok, origin_ok := hwf.origin_ok,
      projection_ok := construct_ok_of_length c.dimsP c.P _ hwf.projection_ok hlen,
      projection_len := hlen.trans hwf.projection_len,
      lut_len := hwf.lut_len, valid_len := hwf.valid_len, lut_size_t := hwf.lut_size_t }

/-- C19: the set of observed voxels does not depend on the camera order.  For a
well-formed call and a permutation `σ` of its `n_images` projection matrices
(entry `(i, j)` of camera `cam` of the permuted call is entry `(i, j)` of camera
`σ cam`), the permuted call is well formed, both calls return, and for every
voxel offset `o` the final `LUT[2*o]` differs from `-1` in one result if and
only if it does in the other. -/
theorem C19_order_independent_coverage {F : Type} (A : FloatOps F) (c : Call F)
    (σ : Equiv.Perm (Fin c.n_images)) (n_channels : Int) (L0 V0 : List Int) (vol0 : List F)
    (hwf : WellFormed c L0 V0) :
    WellFormed (c.permuteCameras A σ) L0 V0 ∧
    (∀ cam i j, cam < c.n_images → i < 3 → j < 4 →
      projEntry A (c.permuteCameras A σ).P cam i j = projEntry A c.P (permIndex σ cam) i j) ∧
    ∃ r r2, c.build A n_channels L0 V0 vol0 = some r ∧
      (c.permuteCameras A σ).build A n_channels L0 V0 vol0 = some r2 ∧
      ∀ o, o < c.total →
        ∃ a b : Int, r.LUT[2 * o]? = some a ∧ r2.LUT[2 * o]? = some b ∧
          (b ≠ -1 ↔ a ≠ -1) := by
  have hwf2 := permuteCameras_wf A c σ L0 V0 hwf
  obtain ⟨r, hr, _, hslot⟩ := build_slot A c n_channels L0 V0 vol0 hwf
  obtain ⟨r2, hr2, _, hslot2⟩ := build_slot A (c.permuteCameras A σ) n_channels L0 V0 vol0 hwf2
  refine ⟨hwf2, fun cam i j hc hi hj => projEntry_permuted A c.P c.n_images σ cam i j hc hi hj,
    r, r2, hr, hr2, ?_⟩
  intro o ho
  have hdec : (c.permuteCameras A σ).decode o = c.decode o := rfl
  have h2 := hslot2 o ho
  rw [hdec] at h2
  rcases hslot o ho with ⟨a1, _, _, a4⟩ | ⟨m, hm, hp, a1, _, _⟩
  · rcases h2 with ⟨b1, _, _, _⟩ | ⟨m2, hm2, hp2, b1, _, _⟩
    · exact ⟨-1, -1, a1, b1, Iff.rfl⟩
    · have hm2' : m2 < c.n_images := hm2
      rw [permuteCameras_passes A c σ _ _ _ m2 hm2',
        a4 _ (permIndex_lt σ m2 hm2')] at hp2
      exact absurd hp2 (by decide)
  · rcases h2 with ⟨_, _, _, b4⟩ | ⟨m2, _, _, b1, _, _⟩
    · obtain ⟨cam, hcam, hcm⟩ := permIndex_surj σ m hm
      have := b4 cam hcam
      rw [permuteCameras_passes A c σ _ _ _ cam hcam, hcm, hp] at this
      exact absurd this (by decide)
    · refine ⟨m, m2, a1, b1, ?_⟩
      constructor <;> intro _ <;> omega

/-- Instance of C19: the two cameras of `twoCamCall` exchanged. -/
theorem C19_order_independent_coverage_witness :
    WellFormed twoCamCall demoLUT demoValid ∧
    WellFormed (twoCamCall.permuteCameras exactOps swapCameras) demoLUT demoValid ∧
    ∃ r r2, twoCamCall.build exactOps 1 demoLUT demoValid [] = some r ∧
      (twoCamCall.permuteCameras exactOps swapCameras).build exactOps 1
        demoLUT demoValid [] = some r2 ∧
      ∀ o, o < twoCamCall.total →
        ∃ a b : Int, r.LUT[2 * o]? = some a ∧ r2.LUT[2 * o]? = some b ∧
          (b ≠ -1 ↔ a ≠ -1) :=
  have h := C19_order_independent_coverage exactOps twoCamCall swapCameras 1
    demoLUT demoValid [] (by constructor <;> first | decide | rfl)
  ⟨by constructor <;> first | decide | rfl, h.1, h.2.2⟩

theorem total_size_eq_prod (dims : List Int) (h : Tensor.productFits 1 dims = true) :
    Tensor.total_size dims = dims.prod := by
  unfold Tensor.total_size
  suffices key : ∀ (l : List Int) (a : Int), Tensor.productFits a l = true →
      l.foldl (fun acc dim => wrap32 (acc * dim)) a = a * l.prod by
    simpa using key dims 1 h
  intro l
  induction l with
  | nil => intro a _; simp
  | cons d t ih =>
    intro a ha
    simp only [Tensor.productFits, Bool.and_eq_true, decide_eq_true_eq] at ha
    obtain ⟨⟨h0, h1⟩, h2⟩ := ha
    simp only [List.foldl_cons, List.prod_cons]
    rw [wrap32_of_range _ h0 h1, ih _ h2]
    ring

/-- Where the `int` product does not overflow (and the data size is below
`2^63`), the constructor throws exactly on an empty list or a product that
differs from the data size, and otherwise stores the two lists. -/
theorem construct_of_productFits {F : Type} (dims : List Int) (data : List F)
    (hfit : Tensor.productFits 1 dims = true) (hlen : data.length < 9223372036854775808) :
    ((∃ msg, Tensor.construct dims data = Except.error msg) ↔
      (dims = [] ∨ data = [] ∨ dims.prod ≠ (data.length : Int))) ∧
    (¬ (dims = [] ∨ data = [] ∨ dims.prod ≠ (data.length : Int)) →
      ∃ t, Tensor.construct dims data = Except.ok t ∧ t.get_dims = dims ∧
        t.get_data = data) := by
  have hr := total_size_range dims
  have hp := total_size_eq_prod dims hfit
  have hcmp : toSizeT (Tensor.total_size dims) ≠ data.length ↔
      dims.prod ≠ (data.length : Int) := by
    rw [← hp]
    unfold toSizeT
    constructor
    · intro h1 h2
      apply h1
      omega
    · intro h1 h2
      apply h1
      omega
  unfold Tensor.construct
  by_cases he : (dims.isEmpty || data.isEmpty) = true
  · rw [if_pos he]
    have he2 : dims = [] ∨ data = [] := by
      simpa [List.isEmpty_iff] using he
    constructor
    · constructor
      · intro _
        rcases he2 with h | h
        · exact Or.inl h
        · exact Or.inr (Or.inl h)
      · intro _
        exact ⟨_, rfl⟩
    · intro hn
      exfalso
      apply hn
      rcases he2 with h | h
      · exact Or.inl h
      · exact Or.inr (Or.inl h)
  · rw [if_neg he]
    have he2 : ¬ (dims = [] ∨ data = []) := by
      simpa [List.isEmpty_iff] using he
    by_cases hc : toSizeT (Tensor.total_size dims) ≠ data.length
    · rw [if_pos hc]
      constructor
      · constructor
        · intro _
          exact Or.inr (Or.inr (hcmp.mp hc))
        · intro _
          exact ⟨_, rfl⟩
      · intro hn
        exfalso
        exact hn (Or.inr (Or.inr (hcmp.mp hc)))
    · rw [if_neg hc]
      constructor
      · constructor
        · intro ⟨msg, hmsg⟩
          simp at hmsg
        · intro h
          rcases h with h | h | h
          · exact absurd (Or.inl h) he2
          · exact absurd (Or.inr h) he2
          · exact absurd (hcmp.mpr h) hc
      · intro _
        exact ⟨_, rfl, rfl, rfl⟩

end FastBEV
